import Mathlib

/-!
Shallow embedding of the CPC-Scoreboard core: the standings/ranking model
(`recalcRanks`), the blind-hour reveal engine in its two modes
(`nextSubmission` for step mode, `revealAll` for batch mode), the contest
clock (`updateTimerDisplay`), and the awards extraction (`showAwards` /
`finishReveal` conditions).  All definitions are translated directly from
the frontend script; DOM, audio and animation calls are side-effect-free
with respect to the modelled state and are dropped.
-/

/-- The constant `WA_PENALTY_MINUTES = 20`. -/
def WA_PENALTY_MINUTES : Nat := 20

/-- One problem cell `{ solved, failed, time }`.  A JS object literal that
omits `failed` is modelled with `failed := false` (the field is read only
for truthiness). -/
structure Cell where
  solved : Bool
  failed : Bool
  time : Nat
deriving DecidableEq, Repr

/-- JS object lookup `m[k]`: each key is stored at most once, so the first
binding wins. -/
def objGet {α : Type} (m : List (String × α)) (k : String) : Option α :=
  (m.find? (fun p => p.1 == k)).map (fun p => p.2)

/-- JS object assignment `m[k] = v`: overwrite in place if the key exists,
otherwise append (JS property insertion order). -/
def objSet {α : Type} (m : List (String × α)) (k : String) (v : α) :
    List (String × α) :=
  if (m.find? (fun p => p.1 == k)).isSome then
    m.map (fun p => if p.1 == k then (k, v) else p)
  else m ++ [(k, v)]

/-- A contestant row of the reveal `state` array. -/
structure Contestant where
  handle : String
  freezeRank : Nat
  solved : Nat
  penalty : Nat
  rank : Nat
  delta : Int
  probs : List (String × Cell)
deriving DecidableEq, Repr

/-- A blind-hour submission record. -/
structure Submission where
  handle : String
  problemIndex : String
  problemName : String
  verdict : String
  relativeTimeSec : Nat
  wrongAttemptsBefore : Nat
deriving DecidableEq, Repr

/-- The `mvp` tracker `{ handle, delta }`. -/
structure MvpT where
  handle : String
  delta : Int
deriving DecidableEq, Repr

/-- The `lastMinuteHero` tracker. -/
structure HeroT where
  handle : String
  problemIndex : String
  problemName : String
  time : Nat
deriving DecidableEq, Repr

/-- The `mostPersistent` tracker. -/
structure PersistT where
  handle : String
  problemIndex : String
  problemName : String
  count : Nat
deriving DecidableEq, Repr

/-- The mutable module-level state used by the reveal engine. -/
structure RevealState where
  state : List Contestant
  queue : List Submission
  revealed : Nat
  acceptedCount : Nat
  rankChangeCount : Nat
  mvp : MvpT
  lastMinuteHero : HeroT
  submissionCounts : List (String × Nat)
  mostPersistent : PersistT
  processing : Bool
  revealFinished : Bool
deriving DecidableEq, Repr

/-- The JS comparator
`(a, b) => b.solved !== a.solved ? b.solved - a.solved : a.penalty - b.penalty`
expressed as the boolean relation "`a` may come before `b`". -/
def standingsLE (a b : Contestant) : Bool :=
  if a.solved == b.solved then decide (a.penalty ≤ b.penalty)
  else decide (b.solved < a.solved)

/-- `recalcRanks()`: stable-sort a copy of the `state` array by
(solved desc, penalty asc) and write `rank = position + 1` and
`delta = freezeRank - rank` back into each contestant, leaving the array
order itself unchanged.  Array elements are identified by index (JS object
identity), hence the sort runs over `state.enum`. -/
def recalcRanks (s : List Contestant) : List Contestant :=
  let sorted := (s.enum).mergeSort (fun a b => standingsLE a.2 b.2)
  s.enum.map (fun ic =>
    let r := sorted.findIdx (fun p => p.1 == ic.1) + 1
    { ic.2 with rank := r, delta := (ic.2.freezeRank : Int) - (r : Int) })

/-- `state.find(x => x.handle === h)`. -/
def findHandle (s : List Contestant) (h : String) : Option Contestant :=
  s.find? (fun x => x.handle == h)

/-- Mutating the object returned by `state.find` updates the first matching
element of the array in place. -/
def updateFirstHandle (s : List Contestant) (h : String)
    (f : Contestant → Contestant) : List Contestant :=
  match s with
  | [] => []
  | c :: rest =>
    if c.handle == h then f c :: rest
    else c :: updateFirstHandle rest h f

/-- `submissionCounts[key] || 0`. -/
def countGet (m : List (String × Nat)) (k : String) : Nat :=
  (objGet m k).getD 0

/-- Truthiness of `c.probs[idx]?.solved`. -/
def cellSolved (c : Contestant) (idx : String) : Bool :=
  ((objGet c.probs idx).map (fun cl => cl.solved)).getD false

/-- The accepted-verdict mutation shared verbatim by both modes:
`c.probs[sub.problemIndex] = { solved: true, time: sub.relativeTimeSec }`,
`c.solved++`,
`c.penalty += Math.floor(sub.relativeTimeSec / 60) + WA_PENALTY_MINUTES * wa`. -/
def acceptUpdate (sub : Submission) (c : Contestant) : Contestant :=
  { c with
    probs := objSet c.probs sub.problemIndex ⟨true, false, sub.relativeTimeSec⟩,
    solved := c.solved + 1,
    penalty := c.penalty +
      (sub.relativeTimeSec / 60 + WA_PENALTY_MINUTES * sub.wrongAttemptsBefore) }

/-- `finishReveal()` restricted to core state: sets `revealFinished`. -/
def finishReveal (st : RevealState) : RevealState :=
  { st with revealFinished := true }

/-- Step mode: one call of `nextSubmission()` with every DOM / audio / sleep
effect stripped.  All early returns of the source are preserved. -/
def nextSubmission (st : RevealState) : RevealState :=
  if st.processing then st
  else if st.revealFinished then st
  else match st.queue with
  | [] => finishReveal st
  | sub :: rest =>
    let st1 : RevealState := { st with queue := rest, revealed := st.revealed + 1 }
    match findHandle st1.state sub.handle with
    | none => st1
    | some _ =>
      let key := sub.handle ++ "|" ++ sub.problemIndex
      let n := countGet st1.submissionCounts key + 1
      let st2 : RevealState :=
        { st1 with
          submissionCounts := objSet st1.submissionCounts key n,
          mostPersistent :=
            if st1.mostPersistent.count < n then
              ⟨sub.handle, sub.problemIndex, sub.problemName, n⟩
            else st1.mostPersistent }
      if sub.verdict == "OK" then
        let oldRank := ((findHandle st2.state sub.handle).map
          (fun c => c.rank)).getD 0
        let newState := recalcRanks
          (updateFirstHandle st2.state sub.handle (acceptUpdate sub))
        let st3 : RevealState :=
          { st2 with
            acceptedCount := st2.acceptedCount + 1,
            lastMinuteHero :=
              ⟨sub.handle, sub.problemIndex, sub.problemName, sub.relativeTimeSec⟩,
            state := newState }
        match findHandle newState sub.handle with
        | none => st3
        | some cN =>
          if 0 < (oldRank : Int) - (cN.rank : Int) then
            { st3 with
              rankChangeCount := st3.rankChangeCount + 1,
              mvp :=
                if st3.mvp.delta < cN.delta then ⟨cN.handle, cN.delta⟩
                else st3.mvp }
          else st3
      else
        { st2 with
          state := updateFirstHandle st2.state sub.handle (fun c =>
            if cellSolved c sub.problemIndex then c
            else { c with probs := objSet c.probs sub.problemIndex ⟨false, true, 0⟩ }) }

/-- Running step mode `n` times (`nextSubmission` is re-invoked until the
queue is exhausted). -/
def stepRun : Nat → RevealState → RevealState
  | 0, st => st
  | n + 1, st => stepRun n (nextSubmission st)

/-- One iteration of the `while (queue.length > 0)` loop of `revealAll()`. -/
def revealStep (st : RevealState) (sub : Submission) : RevealState :=
  let st1 : RevealState := { st with revealed := st.revealed + 1 }
  match findHandle st1.state sub.handle with
  | none => st1
  | some _ =>
    let key := sub.handle ++ "|" ++ sub.problemIndex
    let n := countGet st1.submissionCounts key + 1
    let st2 : RevealState :=
      { st1 with
        submissionCounts := objSet st1.submissionCounts key n,
        mostPersistent :=
          if st1.mostPersistent.count < n then
            ⟨sub.handle, sub.problemIndex, sub.problemName, n⟩
          else st1.mostPersistent }
    if sub.verdict == "OK" then
      { st2 with
        state := updateFirstHandle st2.state sub.handle (acceptUpdate sub),
        acceptedCount := st2.acceptedCount + 1,
        lastMinuteHero :=
          if st2.lastMinuteHero.time < sub.relativeTimeSec then
            ⟨sub.handle, sub.problemIndex, sub.problemName, sub.relativeTimeSec⟩
          else st2.lastMinuteHero }
    else st2

/-- The `oldRanks` snapshot object `state.forEach(c => oldRanks[c.handle] = c.rank)`. -/
def snapshotRanks (s : List Contestant) : List (String × Nat) :=
  s.foldl (fun m c => objSet m c.handle c.rank) []

/-- JS `x || y` on a looked-up number: a missing key or a stored `0` falls
back to `y`. -/
def jsOrNat (x : Option Nat) (y : Nat) : Nat :=
  match x with
  | some v => if v == 0 then y else v
  | none => y

/-- One iteration of the post-loop `state.forEach` of `revealAll()` that
counts rank changes and picks the MVP from `oldRanks[c.handle] || c.rank`. -/
def mvpScanStep (oldRanks : List (String × Nat)) (st : RevealState)
    (c : Contestant) : RevealState :=
  let old := jsOrNat (objGet oldRanks c.handle) c.rank
  let delta : Int := (old : Int) - (c.rank : Int)
  let st1 :=
    if delta ≠ 0 then { st with rankChangeCount := st.rankChangeCount + 1 }
    else st
  if st1.mvp.delta < delta then { st1 with mvp := ⟨c.handle, delta⟩ } else st1

/-- Batch mode: `revealAll()` with every DOM effect stripped — drain the
queue with the shared scoring logic, one final `recalcRanks`, one MVP /
rank-change scan against the `oldRanks` snapshot, then `finishReveal`. -/
def revealAll (st : RevealState) : RevealState :=
  let oldRanks := snapshotRanks st.state
  let stL := st.queue.foldl revealStep { st with queue := [] }
  let stR : RevealState := { stL with state := recalcRanks stL.state }
  let stM := stR.state.foldl (mvpScanStep oldRanks) stR
  finishReveal stM

/-- Contest lifecycle phases. -/
inductive Phase where
  | setup
  | live
  | frozen
  | ended
  | reveal
deriving DecidableEq, Repr, BEq

/-- The module-level clock state read and written by `updateTimerDisplay`. -/
structure ClockState where
  contestDurationSec : Int
  freezeAtSec : Int
  contestStartTimestamp : Int
  timeScale : Int
  isFrozen : Bool
  currentPhase : Phase
  timerRunning : Bool
deriving DecidableEq, Repr

/-- `enterFrozenPhase()` restricted to core state (double-entry guarded). -/
def enterFrozenPhase (cs : ClockState) : ClockState :=
  if cs.currentPhase = Phase.frozen then cs
  else { cs with currentPhase := Phase.frozen, isFrozen := true }

/-- `enterContestEndedPhase()` restricted to core state (stops the timer). -/
def enterContestEndedPhase (cs : ClockState) : ClockState :=
  { cs with currentPhase := Phase.ended, timerRunning := false }

/-- One tick of `updateTimerDisplay()` at absolute time `now` (ms).
Returns the new clock state together with the displayed
`(remaining, remainingUntilFreeze)` pair. -/
def updateTimerDisplay (cs : ClockState) (now : Int) :
    ClockState × Int × Int :=
  let elapsedMs := (now - cs.contestStartTimestamp) * cs.timeScale
  let elapsedSec := Int.fdiv elapsedMs 1000
  let remaining := max 0 (cs.contestDurationSec - elapsedSec)
  let remainingUntilFreeze := max 0 (cs.freezeAtSec - elapsedSec)
  let cs1 :=
    if ¬cs.isFrozen ∧ cs.freezeAtSec ≤ elapsedSec ∧ cs.currentPhase = Phase.live
    then enterFrozenPhase { cs with isFrozen := true }
    else cs
  let cs2 :=
    if remaining ≤ 0 ∧ (cs1.currentPhase = Phase.frozen ∨ cs1.currentPhase = Phase.live)
    then enterContestEndedPhase { cs1 with timerRunning := false }
    else cs1
  (cs2, remaining, remainingUntilFreeze)

/-- The three award badges assembled by `showAwards()`: the Hill Climber
card is emitted iff `mvp.handle && mvp.delta > 0`, the Mr. Not Give Up card
iff `mostPersistent.handle && mostPersistent.count > 1`, the Last-Minute
Hero card iff `lastMinuteHero.handle`. -/
def showAwards (st : RevealState) :
    Option MvpT × Option PersistT × Option HeroT :=
  ( if st.mvp.handle ≠ "" ∧ 0 < st.mvp.delta then some st.mvp else none,
    if st.mostPersistent.handle ≠ "" ∧ 1 < st.mostPersistent.count then
      some st.mostPersistent
    else none,
    if st.lastMinuteHero.handle ≠ "" then some st.lastMinuteHero else none )

/-!
### Ranking machinery

`recalcRanks` is analysed through the stable sort it performs: the sorted
copy of the indexed state array is strictly ordered by "better key, or
equal key and smaller original index", and a contestant's new rank is one
plus the number of indexed entries strictly before it in that order.
-/

/-- The sort key `(solved, penalty)` of a contestant. -/
def key (c : Contestant) : Nat × Nat := (c.solved, c.penalty)

/-- The key list of a state. -/
def keysOf (s : List Contestant) : List (Nat × Nat) := s.map key

/-- The rank list of a state. -/
def ranksOf (s : List Contestant) : List Nat := s.map (fun c => c.rank)

/-- Strict "comes before in the stable sort" on `(index, (solved, penalty))`
triples: strictly better key, or equal key and smaller original index. -/
abbrev posLT (p q : Nat × (Nat × Nat)) : Prop :=
  (q.2.1 < p.2.1 ∨ (p.2.1 = q.2.1 ∧ p.2.2 < q.2.2)) ∨ (p.2 = q.2 ∧ p.1 < q.1)

/-- `posLT` read through contestant keys. -/
abbrev pairLT (p q : Nat × Contestant) : Prop :=
  posLT (p.1, key p.2) (q.1, key q.2)

/-- The stable-sorted copy of the indexed state array. -/
def sortedEnum (s : List Contestant) : List (Nat × Contestant) :=
  (s.enum).mergeSort (fun a b => standingsLE a.2 b.2)

/-- The observable `(handle, solved, penalty)` projection of a state. -/
def obsOf (s : List Contestant) : List (String × Nat × Nat) :=
  s.map (fun c => (c.handle, c.solved, c.penalty))

def subKey (sub : Submission) : String :=
  sub.handle ++ "|" ++ sub.problemIndex

/-- Invariant: every tracked submission count is at most one, the
persistence candidate count is at most one, any key already counted once
no longer occurs in the queue, and the queue contains no repeated key. -/
def OnceInv (st : RevealState) : Prop :=
  (∀ k, countGet st.submissionCounts k ≤ 1) ∧
  st.mostPersistent.count ≤ 1 ∧
  (∀ k, countGet st.submissionCounts k = 1 → k ∉ st.queue.map subKey) ∧
  (st.queue.map subKey).Nodup

/-- Increment the `revealed` counter only. -/
def bumpRevealed (st : RevealState) : RevealState :=
  { st with revealed := st.revealed + 1 }

/-- Coupling between a step-mode state and a batch-loop accumulator: equal
observables, counters and trackers, with the step-mode state idle and
rank-consistent. -/
def StepBatchRel (a b : RevealState) : Prop :=
  obsOf a.state = obsOf b.state ∧
  a.submissionCounts = b.submissionCounts ∧
  a.mostPersistent = b.mostPersistent ∧
  a.acceptedCount = b.acceptedCount ∧
  a.lastMinuteHero = b.lastMinuteHero ∧
  a.revealed = b.revealed ∧
  a.processing = false ∧
  a.revealFinished = false ∧
  ranksOf (recalcRanks a.state) = ranksOf a.state

/-- A two-contestant sample state used to witness the ranking theorems. -/
def wA : Contestant :=
  { handle := "alice", freezeRank := 2, solved := 0, penalty := 5,
    rank := 2, delta := 0, probs := [] }

def wB : Contestant :=
  { handle := "bob", freezeRank := 1, solved := 1, penalty := 10,
    rank := 1, delta := 0, probs := [("P2", ⟨true, false, 30⟩)] }

def wS : List Contestant := [wA, wB]

def wBusy : RevealState :=
  { state := [wA, wB], queue := [], revealed := 3, acceptedCount := 1,
    rankChangeCount := 0, mvp := ⟨"", 0⟩, lastMinuteHero := ⟨"", "", "", 0⟩,
    submissionCounts := [], mostPersistent := ⟨"", "", "", 0⟩,
    processing := true, revealFinished := false }

def wZ : Contestant :=
  { handle := "zoe", freezeRank := 1, solved := 1, penalty := 100,
    rank := 1, delta := 0, probs := [("A", ⟨true, false, 100⟩)] }

def wSub754 : Submission :=
  { handle := "zoe", problemIndex := "D", problemName := "dee",
    verdict := "OK", relativeTimeSec := 754, wrongAttemptsBefore := 2 }

def wSt754 : RevealState :=
  { state := [wZ], queue := [wSub754], revealed := 0, acceptedCount := 0,
    rankChangeCount := 0, mvp := ⟨"", 0⟩, lastMinuteHero := ⟨"", "", "", 0⟩,
    submissionCounts := [], mostPersistent := ⟨"", "", "", 0⟩,
    processing := false, revealFinished := false }

def wSubRej : Submission :=
  { handle := "zoe", problemIndex := "A", problemName := "ay",
    verdict := "WRONG_ANSWER", relativeTimeSec := 800, wrongAttemptsBefore := 1 }

def wStRej : RevealState :=
  { state := [wZ], queue := [wSubRej], revealed := 0, acceptedCount := 0,
    rankChangeCount := 0, mvp := ⟨"", 0⟩, lastMinuteHero := ⟨"", "", "", 0⟩,
    submissionCounts := [], mostPersistent := ⟨"", "", "", 0⟩,
    processing := false, revealFinished := false }

def wSubU : Submission :=
  { handle := "ghost", problemIndex := "A", problemName := "ay",
    verdict := "OK", relativeTimeSec := 900, wrongAttemptsBefore := 0 }

def wStU : RevealState :=
  { state := [wZ], queue := [wSubU], revealed := 0, acceptedCount := 0,
    rankChangeCount := 0, mvp := ⟨"", 0⟩, lastMinuteHero := ⟨"", "", "", 0⟩,
    submissionCounts := [], mostPersistent := ⟨"", "", "", 0⟩,
    processing := false, revealFinished := false }

def wClock : ClockState :=
  { contestDurationSec := 100, freezeAtSec := 80, contestStartTimestamp := 0,
    timeScale := 1, isFrozen := false, currentPhase := Phase.live,
    timerRunning := true }

def bugC : Contestant :=
  { handle := "zed", freezeRank := 1, solved := 1, penalty := 1,
    rank := 1, delta := 0, probs := [("A", ⟨true, false, 100⟩)] }

def bugSub : Submission :=
  { handle := "zed", problemIndex := "A", problemName := "ay",
    verdict := "OK", relativeTimeSec := 60, wrongAttemptsBefore := 0 }

def bugSt : RevealState :=
  { state := [bugC], queue := [bugSub], revealed := 0, acceptedCount := 0,
    rankChangeCount := 0, mvp := ⟨"", 0⟩, lastMinuteHero := ⟨"", "", "", 0⟩,
    submissionCounts := [], mostPersistent := ⟨"", "", "", 0⟩,
    processing := false, revealFinished := false }

def cxA : Contestant :=
  { handle := "ann", freezeRank := 2, solved := 0, penalty := 5,
    rank := 2, delta := 0, probs := [] }

def cxB : Contestant :=
  { handle := "ben", freezeRank := 1, solved := 1, penalty := 10,
    rank := 1, delta := 0, probs := [("P2", ⟨true, false, 30⟩)] }

def cxSub1 : Submission :=
  { handle := "ann", problemIndex := "P1", problemName := "one",
    verdict := "OK", relativeTimeSec := 60, wrongAttemptsBefore := 0 }

def cxSub2 : Submission :=
  { handle := "ben", problemIndex := "P3", problemName := "three",
    verdict := "OK", relativeTimeSec := 120, wrongAttemptsBefore := 0 }

/-- A fresh, rank-consistent reveal state with a strictly time-ordered
blind-hour queue:  "ann" climbs to rank 1 after the first acceptance and
is overtaken again by "ben" after the second. -/
def cxSt : RevealState :=
  { state := [cxA, cxB], queue := [cxSub1, cxSub2], revealed := 0,
    acceptedCount := 0, rankChangeCount := 0, mvp := ⟨"", 0⟩,
    lastMinuteHero := ⟨"", "", "", 0⟩, submissionCounts := [],
    mostPersistent := ⟨"", "", "", 0⟩, processing := false,
    revealFinished := false }

theorem posLT_irrefl (p : Nat × (Nat × Nat)) : ¬ posLT p p := by
  simp [posLT]

theorem posLT_asymm {p q : Nat × (Nat × Nat)} (h : posLT p q) : ¬ posLT q p := by
  rcases p with ⟨i, a, b⟩; rcases q with ⟨j, c, d⟩
  simp only [posLT, Prod.mk.injEq] at *
  omega

theorem posLT_trans {p q r : Nat × (Nat × Nat)} (h1 : posLT p q)
    (h2 : posLT q r) : posLT p r := by
  rcases p with ⟨i, a, b⟩; rcases q with ⟨j, c, d⟩; rcases r with ⟨k, e, f⟩
  simp only [posLT, Prod.mk.injEq] at *
  omega

theorem posLT_or {p q : Nat × (Nat × Nat)} (hne : p.1 ≠ q.1) :
    posLT p q ∨ posLT q p := by
  rcases p with ⟨i, a, b⟩; rcases q with ⟨j, c, d⟩
  simp only [posLT, Prod.mk.injEq] at *
  omega

theorem standingsLE_iff {a b : Contestant} :
    standingsLE a b = true ↔
      (b.solved < a.solved ∨ (a.solved = b.solved ∧ a.penalty ≤ b.penalty)) := by
  unfold standingsLE
  split
  · rename_i h
    rw [beq_iff_eq] at h
    simp [h]
  · rename_i h
    rw [beq_iff_eq] at h
    simp only [decide_eq_true_eq]
    omega

theorem pairLE_trans (a b c : Nat × Contestant) :
    standingsLE a.2 b.2 → standingsLE b.2 c.2 → standingsLE a.2 c.2 := by
  simp only [standingsLE_iff]
  omega

theorem pairLE_total (a b : Nat × Contestant) :
    standingsLE a.2 b.2 || standingsLE b.2 a.2 := by
  rw [Bool.or_eq_true, standingsLE_iff, standingsLE_iff]
  omega

theorem sortedEnum_perm (s : List Contestant) :
    List.Perm (sortedEnum s) s.enum :=
  List.mergeSort_perm _ _

theorem enum_nodup (s : List Contestant) : s.enum.Nodup := by
  have h : (s.enum.map Prod.fst).Nodup := by
    rw [List.enum_map_fst]; exact List.nodup_range _
  exact List.Nodup.of_map _ h

theorem sortedEnum_nodup (s : List Contestant) : (sortedEnum s).Nodup :=
  (sortedEnum_perm s).nodup_iff.mpr (enum_nodup s)

theorem sortedEnum_fst_nodup (s : List Contestant) :
    ((sortedEnum s).map Prod.fst).Nodup := by
  have h : List.Perm ((sortedEnum s).map Prod.fst) (s.enum.map Prod.fst) :=
    (sortedEnum_perm s).map _
  rw [h.nodup_iff, List.enum_map_fst]
  exact List.nodup_range _

/-- Picking two positions `i < j` of a list yields a two-element sublist. -/
theorem pair_get_sublist {α : Type} :
    ∀ (l : List α) (i j : Nat) (hij : i < j) (hj : j < l.length),
      List.Sublist [l.get ⟨i, Nat.lt_trans hij hj⟩, l.get ⟨j, hj⟩] l
  | a :: t, 0, j + 1, hij, hj => by
    simp only [List.get]
    exact List.Sublist.cons₂ a
      (List.singleton_sublist.mpr (t.get_mem j (by simpa using hj)))
  | a :: t, i + 1, j + 1, hij, hj => by
    simp only [List.get]
    exact List.Sublist.cons a
      (pair_get_sublist t i j (by omega) (by simpa using hj))

/-- In a duplicate-free list, a two-element sublist fixes the relative
order of the positions of its two elements. -/
theorem indexOf_lt_of_pair_sublist {α : Type} [DecidableEq α] {a b : α} :
    ∀ {L : List α}, L.Nodup → List.Sublist [a, b] L →
      L.indexOf a < L.indexOf b := by
  intro L
  induction L with
  | nil => intro _ h; simp at h
  | cons x t ih =>
    intro hnd hs
    have hxt : x ∉ t := (List.nodup_cons.mp hnd).1
    cases hs with
    | cons₂ _ h =>
      have hbt : b ∈ t := List.singleton_sublist.mp h
      have hba : b ≠ a := by
        intro hcol
        exact hxt (hcol ▸ hbt)
      rw [List.indexOf_cons_self, List.indexOf_cons_ne _ (Ne.symm hba)]
      exact Nat.succ_pos _
    | cons _ h =>
      have hat : a ∈ t := (h.subset) (by simp)
      have hbt : b ∈ t := (h.subset) (by simp)
      have hxa : x ≠ a := by intro hcol; exact hxt (hcol ▸ hat)
      have hxb : x ≠ b := by intro hcol; exact hxt (hcol ▸ hbt)
      rw [List.indexOf_cons_ne _ hxa, List.indexOf_cons_ne _ hxb]
      exact Nat.succ_lt_succ (ih ((List.nodup_cons.mp hnd).2) h)

/-- In a duplicate-free list, `indexOf` inverts indexing. -/
theorem nodup_indexOf_getElem {α : Type} [DecidableEq α] {L : List α}
    (hnd : L.Nodup) (i : Nat) (hi : i < L.length) :
    L.indexOf L[i] = i := by
  have hmem : L[i] ∈ L := List.getElem_mem hi
  have h1 : L.indexOf L[i] < L.length := List.indexOf_lt_length.mpr hmem
  have h2 := List.getElem_indexOf (l := L) h1
  exact (hnd.getElem_inj_iff).mp h2

/-- Every element of the sorted indexed array is an `(index, element)` pair
of the original state. -/
theorem mem_sortedEnum_getElem? {s : List Contestant} {x : Nat × Contestant}
    (hx : x ∈ sortedEnum s) : s[x.1]? = some x.2 :=
  List.mem_enum_iff_getElem?.mp ((sortedEnum_perm s).subset hx)

/-- Stability: the sorted indexed array is strictly ordered by `pairLT` —
better keys come first, and equal keys keep their original array order. -/
theorem sortedEnum_pairwise (s : List Contestant) :
    (sortedEnum s).Pairwise pairLT := by
  have hle : (sortedEnum s).Pairwise
      (fun a b : Nat × Contestant => standingsLE a.2 b.2 = true) :=
    List.sorted_mergeSort pairLE_trans pairLE_total s.enum
  rw [List.pairwise_iff_getElem] at hle ⊢
  intro i j hi hj hij
  have hab := hle i j hi hj hij
  rw [standingsLE_iff] at hab
  have hndL : (sortedEnum s).Nodup := sortedEnum_nodup s
  have hfst : ((sortedEnum s).map Prod.fst).Nodup := sortedEnum_fst_nodup s
  have hfstne : (sortedEnum s)[i].1 ≠ (sortedEnum s)[j].1 := by
    intro he
    have hhi : i < ((sortedEnum s).map Prod.fst).length := by simpa using hi
    have hhj : j < ((sortedEnum s).map Prod.fst).length := by simpa using hj
    have hmapeq : ((sortedEnum s).map Prod.fst)[i] =
        ((sortedEnum s).map Prod.fst)[j] := by simpa using he
    have := (hfst.getElem_inj_iff).mp hmapeq
    omega
  rcases hab with hlt | ⟨hs, hp⟩
  · exact Or.inl (Or.inl hlt)
  · rcases Nat.lt_or_ge (sortedEnum s)[i].2.penalty (sortedEnum s)[j].2.penalty
      with hplt | hpge
    · exact Or.inl (Or.inr ⟨hs, hplt⟩)
    · have hpe : (sortedEnum s)[i].2.penalty = (sortedEnum s)[j].2.penalty := by
        omega
      refine Or.inr ⟨?_, ?_⟩
      · show key (sortedEnum s)[i].2 = key (sortedEnum s)[j].2
        unfold key
        rw [hs, hpe]
      · by_contra hge
        have hji : (sortedEnum s)[j].1 < (sortedEnum s)[i].1 := by
          omega
        have hxm : (sortedEnum s)[j] ∈ sortedEnum s := List.getElem_mem hj
        have hym : (sortedEnum s)[i] ∈ sortedEnum s := List.getElem_mem hi
        have hxq := mem_sortedEnum_getElem? hxm
        have hyq := mem_sortedEnum_getElem? hym
        have hxlt : (sortedEnum s)[j].1 < s.length := by
          rcases List.getElem?_eq_some_iff.mp hxq with ⟨h, _⟩
          exact h
        have hylt : (sortedEnum s)[i].1 < s.length := by
          rcases List.getElem?_eq_some_iff.mp hyq with ⟨h, _⟩
          exact h
        have hylt2 : (sortedEnum s)[i].1 < s.enum.length := by simpa using hylt
        have hsub0 := pair_get_sublist s.enum (sortedEnum s)[j].1
          (sortedEnum s)[i].1 hji hylt2
        have hgx : s.enum.get ⟨(sortedEnum s)[j].1,
            Nat.lt_trans hji hylt2⟩ = (sortedEnum s)[j] := by
          rw [List.get_eq_getElem, List.getElem_enum]
          rcases List.getElem?_eq_some_iff.mp hxq with ⟨h, hv⟩
          rw [hv]
        have hgy : s.enum.get ⟨(sortedEnum s)[i].1, hylt2⟩ =
            (sortedEnum s)[i] := by
          rw [List.get_eq_getElem, List.getElem_enum]
          rcases List.getElem?_eq_some_iff.mp hyq with ⟨h, hv⟩
          rw [hv]
        rw [hgx, hgy] at hsub0
        have hxyle : standingsLE (sortedEnum s)[j].2 (sortedEnum s)[i].2 = true := by
          rw [standingsLE_iff]
          omega
        have hsubL := List.pair_sublist_mergeSort pairLE_trans pairLE_total
          hxyle hsub0
        have hidx := indexOf_lt_of_pair_sublist hndL hsubL
        rw [nodup_indexOf_getElem hndL j hj, nodup_indexOf_getElem hndL i hi]
          at hidx
        omega

theorem pairLT_irrefl (p : Nat × Contestant) : ¬ pairLT p p :=
  posLT_irrefl _

theorem pairLT_asymm {p q : Nat × Contestant} (h : pairLT p q) : ¬ pairLT q p :=
  posLT_asymm h

theorem pairLT_trans {p q r : Nat × Contestant} (h1 : pairLT p q)
    (h2 : pairLT q r) : pairLT p r :=
  posLT_trans h1 h2

/-- In a list strictly ordered by `pairLT` with duplicate-free indices, the
position found by index equals the number of entries strictly before the
element in the `pairLT` order. -/
theorem findIdx_eq_countP :
    ∀ {L : List (Nat × Contestant)}, L.Pairwise pairLT →
      ((L.map Prod.fst).Nodup) → ∀ {j : Nat} {c : Contestant}, (j, c) ∈ L →
      L.findIdx (fun p => p.1 == j) =
        L.countP (fun p => decide (pairLT p (j, c))) := by
  intro L
  induction L with
  | nil => intro _ _ _ _ h; simp at h
  | cons x t ih =>
    intro hpw hnd j c hmem
    have hpwt : t.Pairwise pairLT := (List.pairwise_cons.mp hpw).2
    have hhead : ∀ y ∈ t, pairLT x y := (List.pairwise_cons.mp hpw).1
    have hndt : (t.map Prod.fst).Nodup := by
      simp only [List.map_cons, List.nodup_cons] at hnd
      exact hnd.2
    have hxnot : x.1 ∉ t.map Prod.fst := by
      simp only [List.map_cons, List.nodup_cons] at hnd
      exact hnd.1
    rcases eq_or_ne x.1 j with hx | hx
    · have hxeq : x = (j, c) := by
        rcases List.mem_cons.mp hmem with hm | hm
        · exact hm.symm
        · exfalso
          apply hxnot
          rw [hx]
          have : (j, c).1 ∈ t.map Prod.fst := List.mem_map_of_mem _ hm
          simpa using this
      rw [List.findIdx_cons, List.countP_cons]
      have hc1 : (x.1 == j) = true := by simp [hx]
      rw [hc1]
      have hc2 : (decide (pairLT x (j, c))) = false := by
        rw [hxeq]
        simp only [decide_eq_false_iff_not]
        exact pairLT_irrefl _
      rw [hc2]
      have hz : t.countP (fun p => decide (pairLT p (j, c))) = 0 := by
        rw [List.countP_eq_zero]
        intro y hy
        simp only [decide_eq_true_eq]
        exact pairLT_asymm (hxeq ▸ hhead y hy)
      rw [hz]
      rfl
    · have hmt : (j, c) ∈ t := by
        rcases List.mem_cons.mp hmem with hm | hm
        · exact absurd (congrArg Prod.fst hm.symm) hx
        · exact hm
      rw [List.findIdx_cons, List.countP_cons]
      have hc1 : (x.1 == j) = false := by simp [hx]
      rw [hc1]
      have hc2 : (decide (pairLT x (j, c))) = true := by
        simp only [decide_eq_true_eq]
        exact hhead _ hmt
      rw [hc2, ih hpwt hndt hmt]
      simp

theorem length_recalcRanks (s : List Contestant) :
    (recalcRanks s).length = s.length := by
  simp [recalcRanks]

theorem getElem_recalcRanks (s : List Contestant) (j : Nat)
    (hj : j < s.length) (hjr : j < (recalcRanks s).length) :
    (recalcRanks s)[j] =
      { s[j] with
        rank := (sortedEnum s).findIdx (fun p => p.1 == j) + 1,
        delta := (s[j].freezeRank : Int) -
          (((sortedEnum s).findIdx (fun p => p.1 == j) + 1 : Nat) : Int) } := by
  simp only [recalcRanks, List.getElem_map, List.getElem_enum]
  rfl

/-- A contestant's recomputed rank is one plus the number of indexed entries
strictly before it in the stable-sort order. -/
theorem rank_formula (s : List Contestant) (j : Nat) (hj : j < s.length)
    (hjr : j < (recalcRanks s).length) :
    ((recalcRanks s)[j]).rank =
      s.enum.countP (fun p => decide (pairLT p (j, s[j]))) + 1 := by
  rw [getElem_recalcRanks s j hj hjr]
  have hmem : ((j, s[j]) : Nat × Contestant) ∈ sortedEnum s := by
    apply (sortedEnum_perm s).mem_iff.mpr
    rw [List.mem_enum_iff_getElem?]
    exact List.getElem?_eq_getElem hj
  rw [findIdx_eq_countP (sortedEnum_pairwise s) (sortedEnum_fst_nodup s) hmem]
  rw [(sortedEnum_perm s).countP_eq]

theorem pairLT_total_ne {p q : Nat × Contestant} (hne : p.1 ≠ q.1) :
    pairLT p q ∨ pairLT q p :=
  posLT_or hne

/-- Strict monotonicity: an indexed contestant strictly before another in
the stable-sort order receives a strictly smaller rank. -/
theorem rank_lt_rank_of_pairLT (s : List Contestant) {i j : Nat}
    (hi : i < s.length) (hj : j < s.length)
    (hir : i < (recalcRanks s).length) (hjr : j < (recalcRanks s).length)
    (h : pairLT (i, s[i]) (j, s[j])) :
    ((recalcRanks s)[i]).rank < ((recalcRanks s)[j]).rank := by
  rw [rank_formula s i hi hir, rank_formula s j hj hjr]
  have hximem : ((i, s[i]) : Nat × Contestant) ∈ s.enum := by
    rw [List.mem_enum_iff_getElem?]
    exact List.getElem?_eq_getElem hi
  obtain ⟨t, hperm⟩ : ∃ t, List.Perm s.enum ((i, s[i]) :: t) :=
    ⟨_, List.perm_cons_erase hximem⟩
  have h1 : s.enum.countP (fun p => decide (pairLT p (i, s[i]))) =
      t.countP (fun p => decide (pairLT p (i, s[i]))) := by
    rw [hperm.countP_eq, List.countP_cons]
    simp [pairLT_irrefl ((i, s[i]) : Nat × Contestant)]
  have h2 : s.enum.countP (fun p => decide (pairLT p (j, s[j]))) =
      t.countP (fun p => decide (pairLT p (j, s[j]))) + 1 := by
    rw [hperm.countP_eq, List.countP_cons]
    simp [h]
  have h3 : t.countP (fun p => decide (pairLT p (i, s[i]))) ≤
      t.countP (fun p => decide (pairLT p (j, s[j]))) := by
    apply List.countP_mono_left
    intro y hy
    simp only [decide_eq_true_eq]
    intro hyx
    exact pairLT_trans hyx h
  omega

/-- The count of strict predecessors only depends on the indexed key list. -/
theorem countP_enumFrom_keys (f : Nat × (Nat × Nat) → Bool) :
    ∀ (s₁ s₂ : List Contestant) (i : Nat), keysOf s₁ = keysOf s₂ →
      (s₁.enumFrom i).countP (fun p => f (p.1, key p.2)) =
      (s₂.enumFrom i).countP (fun p => f (p.1, key p.2))
  | [], [], _, _ => rfl
  | [], b :: u, i, h => by simp [keysOf] at h
  | a :: t, [], i, h => by simp [keysOf] at h
  | a :: t, b :: u, i, h => by
    simp only [keysOf, List.map_cons, List.cons.injEq] at h
    simp only [List.enumFrom_cons, List.countP_cons]
    rw [countP_enumFrom_keys f t u (i + 1) h.2]
    have hk : key a = key b := h.1
    simp [hk]

theorem keysOf_recalcRanks (s : List Contestant) :
    keysOf (recalcRanks s) = keysOf s := by
  apply List.ext_getElem
  · simp [keysOf, length_recalcRanks]
  · intro j h1 h2
    have hj : j < s.length := by simpa [keysOf] using h2
    have hjr : j < (recalcRanks s).length := by
      rw [length_recalcRanks]; exact hj
    simp only [keysOf, List.getElem_map]
    rw [getElem_recalcRanks s j hj hjr]
    rfl

theorem obsOf_recalcRanks (s : List Contestant) :
    obsOf (recalcRanks s) = obsOf s := by
  apply List.ext_getElem
  · simp [obsOf, length_recalcRanks]
  · intro j h1 h2
    have hj : j < s.length := by simpa [obsOf] using h2
    have hjr : j < (recalcRanks s).length := by
      rw [length_recalcRanks]; exact hj
    simp only [obsOf, List.getElem_map]
    rw [getElem_recalcRanks s j hj hjr]

/-- Equal key lists yield equal recomputed ranks: the ranks produced by
`recalcRanks` are a function of the `(solved, penalty)` sequence alone. -/
theorem ranksOf_recalcRanks_congr {s₁ s₂ : List Contestant}
    (hk : keysOf s₁ = keysOf s₂) :
    ranksOf (recalcRanks s₁) = ranksOf (recalcRanks s₂) := by
  have hlen : s₁.length = s₂.length := by
    have := congrArg List.length hk
    simpa [keysOf] using this
  apply List.ext_getElem
  · simp [ranksOf, length_recalcRanks, hlen]
  · intro j h1 h2
    have hj1 : j < s₁.length := by
      simpa [ranksOf, length_recalcRanks] using h1
    have hj2 : j < s₂.length := by omega
    have hr1 : j < (recalcRanks s₁).length := by
      rw [length_recalcRanks]; exact hj1
    have hr2 : j < (recalcRanks s₂).length := by
      rw [length_recalcRanks]; exact hj2
    simp only [ranksOf, List.getElem_map]
    rw [rank_formula s₁ j hj1 hr1, rank_formula s₂ j hj2 hr2]
    have hkey : key s₁[j] = key s₂[j] := by
      have h := congrArg (fun l => l[j]?) hk
      simp only [keysOf, List.getElem?_map, List.getElem?_eq_getElem hj1,
        List.getElem?_eq_getElem hj2, Option.map_some] at h
      exact Option.some.inj h
    have hq : ∀ s : List Contestant, ∀ x : Nat × Contestant,
        s.enum.countP (fun p => decide (pairLT p x)) =
        (s.enumFrom 0).countP
          (fun p => (fun r => decide (posLT r (x.1, key x.2))) (p.1, key p.2)) := by
      intro s x
      rfl
    rw [hq s₁ (j, s₁[j]), hq s₂ (j, s₂[j])]
    have hx : ((j, s₁[j]).1, key (j, s₁[j]).2) = ((j, s₂[j]).1, key (j, s₂[j]).2) := by
      simp [hkey]
    rw [hx]
    have hc := countP_enumFrom_keys
      (fun r => decide (posLT r ((j, s₂[j]).1, key (j, s₂[j]).2))) s₁ s₂ 0 hk
    omega

theorem recalcRank_pos (s : List Contestant) (j : Nat) (hj : j < s.length)
    (hjr : j < (recalcRanks s).length) : 1 ≤ ((recalcRanks s)[j]).rank := by
  rw [rank_formula s j hj hjr]
  omega

theorem recalcRank_le_length (s : List Contestant) (j : Nat) (hj : j < s.length)
    (hjr : j < (recalcRanks s).length) :
    ((recalcRanks s)[j]).rank ≤ s.length := by
  rw [rank_formula s j hj hjr]
  have hxm : ((j, s[j]) : Nat × Contestant) ∈ s.enum := by
    rw [List.mem_enum_iff_getElem?]
    exact List.getElem?_eq_getElem hj
  have hsplit := List.length_eq_countP_add_countP
    (fun p : Nat × Contestant => decide (pairLT p (j, s[j]))) (l := s.enum)
  have hpos : 0 < s.enum.countP
      (fun p : Nat × Contestant => ¬ decide (pairLT p (j, s[j]))) := by
    rw [List.countP_pos_iff]
    refine ⟨(j, s[j]), hxm, ?_⟩
    simp [pairLT_irrefl ((j, s[j]) : Nat × Contestant)]
  have hlen : s.enum.length = s.length := List.enum_length
  omega

theorem rank_ne_rank (s : List Contestant) {i j : Nat}
    (hi : i < s.length) (hj : j < s.length)
    (hir : i < (recalcRanks s).length) (hjr : j < (recalcRanks s).length)
    (hne : i ≠ j) :
    ((recalcRanks s)[i]).rank ≠ ((recalcRanks s)[j]).rank := by
  rcases pairLT_total_ne (p := (i, s[i])) (q := (j, s[j])) hne with h | h
  · exact Nat.ne_of_lt (rank_lt_rank_of_pairLT s hi hj hir hjr h)
  · exact Nat.ne_of_gt (rank_lt_rank_of_pairLT s hj hi hjr hir h)

theorem ranksOf_nodup (s : List Contestant) :
    (ranksOf (recalcRanks s)).Nodup := by
  rw [List.nodup_iff_getElem?_ne_getElem?]
  intro i j hij hj
  have hj' : j < s.length := by
    simpa [ranksOf, length_recalcRanks] using hj
  have hi' : i < s.length := by omega
  have hir : i < (recalcRanks s).length := by rw [length_recalcRanks]; exact hi'
  have hjr : j < (recalcRanks s).length := by rw [length_recalcRanks]; exact hj'
  have hil : i < (ranksOf (recalcRanks s)).length := by
    simpa [ranksOf, length_recalcRanks] using hi'
  have hjl : j < (ranksOf (recalcRanks s)).length := by
    simpa [ranksOf, length_recalcRanks] using hj'
  rw [List.getElem?_eq_getElem hil, List.getElem?_eq_getElem hjl]
  intro hcon
  have := Option.some.inj hcon
  simp only [ranksOf, List.getElem_map] at this
  exact rank_ne_rank s hi' hj' hir hjr (by omega) this

/-- The recomputed ranks of an `n`-contestant state are a permutation of
`1, 2, …, n`. -/
theorem ranksOf_perm_range (s : List Contestant) :
    List.Perm (ranksOf (recalcRanks s)) (List.range' 1 s.length) := by
  have hnd : (ranksOf (recalcRanks s)).Nodup := ranksOf_nodup s
  have hsub : ranksOf (recalcRanks s) ⊆ List.range' 1 s.length := by
    intro r hr
    simp only [ranksOf, List.mem_map] at hr
    obtain ⟨c, hc, hrc⟩ := hr
    obtain ⟨j, hjr, hcj⟩ := List.getElem_of_mem hc
    have hj : j < s.length := by
      have := hjr; rw [length_recalcRanks] at this; exact this
    rw [List.mem_range'_1]
    have h1 := recalcRank_pos s j hj hjr
    have h2 := recalcRank_le_length s j hj hjr
    rw [hcj] at h1 h2
    rw [hrc] at h1 h2
    omega
  have hlen : (List.range' 1 s.length).length ≤ (ranksOf (recalcRanks s)).length := by
    simp [ranksOf, length_recalcRanks]
  exact (hnd.subperm hsub).perm_of_length_le hlen

theorem ranksOf_recalcRanks_idem (s : List Contestant) :
    ranksOf (recalcRanks (recalcRanks s)) = ranksOf (recalcRanks s) :=
  ranksOf_recalcRanks_congr (keysOf_recalcRanks s)

/-- C4: `recalcRanks` orders contestants by solved count descending, then
penalty ascending; two contestants with equal `(solved, penalty)` keep
their relative input order (stability); and ranking an already-ranked
state again reproduces the same ranks, so repeated ranking of unchanged
input yields the same order. -/
theorem claim_C4_ranking_stable (s : List Contestant) {i j : Nat}
    (hi : i < s.length) (hj : j < s.length)
    (hir : i < (recalcRanks s).length) (hjr : j < (recalcRanks s).length) :
    (s[j].solved < s[i].solved →
      ((recalcRanks s)[i]).rank < ((recalcRanks s)[j]).rank) ∧
    (s[i].solved = s[j].solved → s[i].penalty < s[j].penalty →
      ((recalcRanks s)[i]).rank < ((recalcRanks s)[j]).rank) ∧
    (s[i].solved = s[j].solved → s[i].penalty = s[j].penalty → i < j →
      ((recalcRanks s)[i]).rank < ((recalcRanks s)[j]).rank) ∧
    ranksOf (recalcRanks (recalcRanks s)) = ranksOf (recalcRanks s) := by
  refine ⟨?_, ?_, ?_, ranksOf_recalcRanks_idem s⟩
  · intro hsl
    exact rank_lt_rank_of_pairLT s hi hj hir hjr (Or.inl (Or.inl hsl))
  · intro hse hpl
    exact rank_lt_rank_of_pairLT s hi hj hir hjr (Or.inl (Or.inr ⟨hse, hpl⟩))
  · intro hse hpe hij
    refine rank_lt_rank_of_pairLT s hi hj hir hjr (Or.inr ⟨?_, hij⟩)
    show key s[i] = key s[j]
    unfold key
    rw [hse, hpe]

/-- C10: after a rank recomputation over `n` contestants the assigned ranks
are exactly the integers `1..n`, and every contestant's `delta` equals
`freezeRank` minus the newly assigned rank. -/
theorem claim_C10_ranks_complete (s : List Contestant) :
    List.Perm (ranksOf (recalcRanks s)) (List.range' 1 s.length) ∧
    ∀ c ∈ recalcRanks s, c.delta = (c.freezeRank : Int) - (c.rank : Int) := by
  refine ⟨ranksOf_perm_range s, ?_⟩
  intro c hc
  obtain ⟨j, hjr, hcj⟩ := List.getElem_of_mem hc
  have hj : j < s.length := by rw [length_recalcRanks] at hjr; exact hjr
  rw [← hcj, getElem_recalcRanks s j hj hjr]

theorem claim_C4_witness :
    ((recalcRanks wS).get ⟨1, by decide⟩).rank <
      ((recalcRanks wS).get ⟨0, by decide⟩).rank := by
  have h := (claim_C4_ranking_stable wS (i := 1) (j := 0)
    (by decide) (by decide) (by decide) (by decide)).1 (by decide)
  exact h

theorem claim_C10_witness :
    List.Perm (ranksOf (recalcRanks wS)) (List.range' 1 wS.length) ∧
    ((recalcRanks wS).get ⟨0, by rw [length_recalcRanks]; decide⟩).delta =
      ((((recalcRanks wS).get
          ⟨0, by rw [length_recalcRanks]; decide⟩).freezeRank : Int) -
        (((recalcRanks wS).get
          ⟨0, by rw [length_recalcRanks]; decide⟩).rank : Int)) :=
  ⟨(claim_C10_ranks_complete wS).1,
    (claim_C10_ranks_complete wS).2 _ (List.get_mem _ _ _)⟩

/-- C9: a call to step-mode advance made while the `processing` flag is
still set is rejected at the call site — it returns immediately and leaves
the whole reveal state (queue, contestants, counters) unchanged. -/
theorem claim_C9_reentry_rejected (st : RevealState)
    (h : st.processing = true) : nextSubmission st = st := by
  unfold nextSubmission
  simp [h]

theorem claim_C9_witness : nextSubmission wBusy = wBusy :=
  claim_C9_reentry_rejected wBusy rfl

theorem findHandle_append {h : String} {c : Contestant} :
    ∀ (pre : List Contestant) (post : List Contestant),
      (∀ x ∈ pre, x.handle ≠ h) → c.handle = h →
      findHandle (pre ++ c :: post) h = some c
  | [], post, _, hc => by
    simp [findHandle, List.find?, hc]
  | a :: pre, post, hpre, hc => by
    have ha : a.handle ≠ h := hpre a (by simp)
    simp only [findHandle, List.cons_append, List.find?]
    rw [show (a.handle == h) = false by simpa using ha]
    exact findHandle_append pre post (fun x hx => hpre x (by simp [hx])) hc

theorem updateFirstHandle_append {h : String} {c : Contestant}
    (f : Contestant → Contestant) :
    ∀ (pre : List Contestant) (post : List Contestant),
      (∀ x ∈ pre, x.handle ≠ h) → c.handle = h →
      updateFirstHandle (pre ++ c :: post) h f = pre ++ f c :: post
  | [], post, _, hc => by
    simp [updateFirstHandle, hc]
  | a :: pre, post, hpre, hc => by
    have ha : (a.handle == h) = false := by
      simpa using hpre a (by simp)
    simp only [updateFirstHandle, List.cons_append, ha, Bool.false_eq_true,
      if_false, List.cons.injEq, true_and]
    exact updateFirstHandle_append f pre post
      (fun x hx => hpre x (by simp [hx])) hc
theorem nextSubmission_unknown (st : RevealState) (sub : Submission)
    (rest : List Submission) (hproc : st.processing = false)
    (hfin : st.revealFinished = false) (hq : st.queue = sub :: rest)
    (hnone : findHandle st.state sub.handle = none) :
    nextSubmission st = { st with queue := rest, revealed := st.revealed + 1 } := by
  unfold nextSubmission
  rw [hq]
  simp only [hproc, hfin, Bool.false_eq_true, if_false]
  have hnone2 : findHandle
      ({ st with queue := rest, revealed := st.revealed + 1 } : RevealState).state
      sub.handle = none := hnone
  rw [hnone2]

theorem nextSubmission_accepted (st : RevealState) (sub : Submission)
    (rest : List Submission) (c₀ : Contestant)
    (hproc : st.processing = false) (hfin : st.revealFinished = false)
    (hq : st.queue = sub :: rest) (hok : sub.verdict = "OK")
    (hfound : findHandle st.state sub.handle = some c₀) :
    (nextSubmission st).state =
        recalcRanks (updateFirstHandle st.state sub.handle (acceptUpdate sub)) ∧
    (nextSubmission st).queue = rest ∧
    (nextSubmission st).revealed = st.revealed + 1 ∧
    (nextSubmission st).acceptedCount = st.acceptedCount + 1 ∧
    (nextSubmission st).submissionCounts =
      objSet st.submissionCounts (sub.handle ++ "|" ++ sub.problemIndex)
        (countGet st.submissionCounts (sub.handle ++ "|" ++ sub.problemIndex) + 1) ∧
    (nextSubmission st).mostPersistent =
      (if st.mostPersistent.count <
          countGet st.submissionCounts (sub.handle ++ "|" ++ sub.problemIndex) + 1 then
        ⟨sub.handle, sub.problemIndex, sub.problemName,
          countGet st.submissionCounts (sub.handle ++ "|" ++ sub.problemIndex) + 1⟩
      else st.mostPersistent) ∧
    (nextSubmission st).lastMinuteHero =
      ⟨sub.handle, sub.problemIndex, sub.problemName, sub.relativeTimeSec⟩ ∧
    (nextSubmission st).processing = false ∧
    (nextSubmission st).revealFinished = false := by
  unfold nextSubmission
  rw [hq]
  simp only [hproc, hfin, Bool.false_eq_true, if_false]
  rw [show findHandle
      ({st with queue := rest, revealed := st.revealed + 1} : RevealState).state
      sub.handle = some c₀ from hfound]
  rw [show (sub.verdict == "OK") = true by simp [hok]]
  simp only [if_true]
  rcases hm : findHandle
      (recalcRanks (updateFirstHandle st.state sub.handle (acceptUpdate sub)))
      sub.handle with _ | cN
  · simp only [hm]
    simp
  · simp only [hm]
    split
    · simp
    · simp

theorem nextSubmission_rejected (st : RevealState) (sub : Submission)
    (rest : List Submission) (c₀ : Contestant)
    (hproc : st.processing = false) (hfin : st.revealFinished = false)
    (hq : st.queue = sub :: rest) (hrej : (sub.verdict == "OK") = false)
    (hfound : findHandle st.state sub.handle = some c₀) :
    nextSubmission st =
      { st with
        queue := rest,
        revealed := st.revealed + 1,
        submissionCounts := objSet st.submissionCounts
          (sub.handle ++ "|" ++ sub.problemIndex)
          (countGet st.submissionCounts
            (sub.handle ++ "|" ++ sub.problemIndex) + 1),
        mostPersistent :=
          if st.mostPersistent.count <
              countGet st.submissionCounts
                (sub.handle ++ "|" ++ sub.problemIndex) + 1 then
            ⟨sub.handle, sub.problemIndex, sub.problemName,
              countGet st.submissionCounts
                (sub.handle ++ "|" ++ sub.problemIndex) + 1⟩
          else st.mostPersistent,
        state := updateFirstHandle st.state sub.handle (fun c =>
          if cellSolved c sub.problemIndex then c
          else { c with
            probs := objSet c.probs sub.problemIndex ⟨false, true, 0⟩ }) } := by
  unfold nextSubmission
  rw [hq]
  simp only [hproc, hfin, Bool.false_eq_true, if_false]
  rw [show findHandle
      ({st with queue := rest, revealed := st.revealed + 1} : RevealState).state
      sub.handle = some c₀ from hfound]
  rw [hrej]
  simp

theorem nextSubmission_empty (st : RevealState)
    (hproc : st.processing = false) (hfin : st.revealFinished = false)
    (hq : st.queue = []) : nextSubmission st = finishReveal st := by
  unfold nextSubmission
  rw [hq]
  simp only [hproc, hfin, Bool.false_eq_true, if_false]

theorem penalties_recalcRanks (s : List Contestant) :
    (recalcRanks s).map (fun c => c.penalty) = s.map (fun c => c.penalty) := by
  apply List.ext_getElem
  · simp [length_recalcRanks]
  · intro j h1 h2
    have hj : j < s.length := by simpa using h2
    have hjr : j < (recalcRanks s).length := by
      rw [length_recalcRanks]; exact hj
    simp only [List.getElem_map]
    rw [getElem_recalcRanks s j hj hjr]

/-- C3: an accepted submission processed in step mode adds exactly
`floor(relativeTimeSec / 60) + WA_PENALTY_MINUTES * wrongAttemptsBefore`
to the affected contestant's penalty and leaves every other contestant's
penalty unchanged. -/
theorem claim_C3_penalty_formula (st : RevealState) (sub : Submission)
    (rest : List Submission) (pre post : List Contestant) (c : Contestant)
    (hproc : st.processing = false) (hfin : st.revealFinished = false)
    (hq : st.queue = sub :: rest) (hok : sub.verdict = "OK")
    (hsplit : st.state = pre ++ c :: post)
    (hpre : ∀ x ∈ pre, x.handle ≠ sub.handle) (hc : c.handle = sub.handle) :
    (nextSubmission st).state.map (fun x => x.penalty) =
      pre.map (fun x => x.penalty) ++
        (c.penalty + (sub.relativeTimeSec / 60 +
          WA_PENALTY_MINUTES * sub.wrongAttemptsBefore)) ::
        post.map (fun x => x.penalty) := by
  have hfound : findHandle st.state sub.handle = some c := by
    rw [hsplit]; exact findHandle_append pre post hpre hc
  have hstate := (nextSubmission_accepted st sub rest c hproc hfin hq hok hfound).1
  rw [hstate, penalties_recalcRanks, hsplit,
    updateFirstHandle_append (acceptUpdate sub) pre post hpre hc]
  simp [acceptUpdate]

/-- C5: a rejected submission processed in step mode marks the affected
cell `failed` only when that cell is not already solved, never changes a
cell whose `solved` flag is set (the state is untouched in that case), and
triggers no rank recomputation — every contestant's rank is unchanged. -/
theorem claim_C5_rejection (st : RevealState) (sub : Submission)
    (rest : List Submission) (pre post : List Contestant) (c : Contestant)
    (hproc : st.processing = false) (hfin : st.revealFinished = false)
    (hq : st.queue = sub :: rest) (hrej : (sub.verdict == "OK") = false)
    (hsplit : st.state = pre ++ c :: post)
    (hpre : ∀ x ∈ pre, x.handle ≠ sub.handle) (hc : c.handle = sub.handle) :
    (cellSolved c sub.problemIndex = true →
      (nextSubmission st).state = st.state) ∧
    (cellSolved c sub.problemIndex = false →
      (nextSubmission st).state =
        pre ++ { c with
          probs := objSet c.probs sub.problemIndex ⟨false, true, 0⟩ } :: post) ∧
    (nextSubmission st).state.map (fun x => x.rank) =
      st.state.map (fun x => x.rank) := by
  have hfound : findHandle st.state sub.handle = some c := by
    rw [hsplit]; exact findHandle_append pre post hpre hc
  have hstep := nextSubmission_rejected st sub rest c hproc hfin hq hrej hfound
  have hstate : (nextSubmission st).state =
      pre ++ (if cellSolved c sub.problemIndex then c
        else { c with
          probs := objSet c.probs sub.problemIndex ⟨false, true, 0⟩ }) :: post := by
    rw [hstep]
    show updateFirstHandle st.state sub.handle _ = _
    rw [hsplit, updateFirstHandle_append _ pre post hpre hc]
  refine ⟨?_, ?_, ?_⟩
  · intro hsolved
    rw [hstate, hsolved, hsplit]
    simp
  · intro hunsolved
    rw [hstate, hunsolved]
    simp
  · rw [hstate, hsplit]
    rcases Bool.eq_false_or_eq_true (cellSolved c sub.problemIndex) with h | h
      <;> simp [h]

theorem revealStep_unknown (a : RevealState) (sub : Submission)
    (h : findHandle a.state sub.handle = none) :
    revealStep a sub = bumpRevealed a := by
  unfold revealStep bumpRevealed
  simp [h]

theorem revealStep_bump (a : RevealState) (sub : Submission) :
    revealStep (bumpRevealed a) sub = bumpRevealed (revealStep a sub) := by
  unfold revealStep bumpRevealed
  cases hm : findHandle a.state sub.handle with
  | none => simp [hm]
  | some c => simp only [hm]; split <;> simp

theorem mvpScanStep_bump (oldRanks : List (String × Nat)) (a : RevealState)
    (c : Contestant) :
    mvpScanStep oldRanks (bumpRevealed a) c =
      bumpRevealed (mvpScanStep oldRanks a c) := by
  unfold mvpScanStep bumpRevealed
  simp only []
  split <;> split <;> rfl

/-- C7: a submission whose handle is unknown is skipped by both modes
without failing: step mode pops it and only advances the progress counter;
one batch-loop iteration only advances the progress counter; and the whole
batch run on the remaining queue is unaffected apart from that counter —
no per-handle data (submission counts, persistence, solved, penalty, MVP,
last-minute) changes. -/
theorem claim_C7_unknown_handle (st : RevealState) (sub : Submission)
    (rest : List Submission) (hproc : st.processing = false)
    (hfin : st.revealFinished = false) (hq : st.queue = sub :: rest)
    (hunknown : ∀ x ∈ st.state, x.handle ≠ sub.handle) :
    nextSubmission st = { st with queue := rest, revealed := st.revealed + 1 } ∧
    revealStep st sub = bumpRevealed st ∧
    revealAll st = bumpRevealed (revealAll { st with queue := rest }) := by
  have hnone : findHandle st.state sub.handle = none := by
    unfold findHandle
    rw [List.find?_eq_none]
    intro x hx
    simpa using hunknown x hx
  refine ⟨nextSubmission_unknown st sub rest hproc hfin hq hnone, ?_, ?_⟩
  · exact revealStep_unknown st sub hnone
  · have hscan : ∀ (l : List Contestant) (x : RevealState)
        (oldRanks : List (String × Nat)),
        l.foldl (mvpScanStep oldRanks) (bumpRevealed x) =
          bumpRevealed (l.foldl (mvpScanStep oldRanks) x) := by
      intro l x oldRanks
      exact List.foldl_hom bumpRevealed (mvpScanStep oldRanks)
        (mvpScanStep oldRanks) l x (fun a c => mvpScanStep_bump oldRanks a c)
    have hgoal : ∀ (Y : RevealState) (oldRanks : List (String × Nat)),
        finishReveal ((recalcRanks Y.state).foldl (mvpScanStep oldRanks)
          ({ bumpRevealed Y with state := recalcRanks Y.state } : RevealState)) =
        bumpRevealed (finishReveal
          ((recalcRanks Y.state).foldl (mvpScanStep oldRanks)
            ({ Y with state := recalcRanks Y.state } : RevealState))) := by
      intro Y oldRanks
      have h1 : ({ bumpRevealed Y with state := recalcRanks Y.state } : RevealState) =
          bumpRevealed ({ Y with state := recalcRanks Y.state } : RevealState) := rfl
      rw [h1, hscan]
      rfl
    have hbase : ((sub :: rest).foldl revealStep
        ({ st with queue := [] } : RevealState)) =
        bumpRevealed (rest.foldl revealStep
          ({ st with queue := [] } : RevealState)) := by
      rw [List.foldl_cons,
        revealStep_unknown ({ st with queue := [] } : RevealState) sub hnone]
      exact List.foldl_hom bumpRevealed revealStep revealStep rest _
        (fun x y => revealStep_bump x y)
    unfold revealAll
    rw [hq, hbase]
    exact hgoal (rest.foldl revealStep ({ st with queue := [] } : RevealState))
      (snapshotRanks st.state)

theorem claim_C3_witness :
    (nextSubmission wSt754).state.map (fun x => x.penalty) = [152] := by
  have h := claim_C3_penalty_formula wSt754 wSub754 [] [] [] wZ
    rfl rfl rfl rfl rfl (by simp) rfl
  rw [h]
  decide

theorem claim_C5_witness :
    (nextSubmission wStRej).state = wStRej.state ∧
    (nextSubmission wStRej).state.map (fun x => x.rank) =
      wStRej.state.map (fun x => x.rank) := by
  have h := claim_C5_rejection wStRej wSubRej [] [] [] wZ
    rfl rfl rfl rfl rfl (by simp) rfl
  exact ⟨h.1 rfl, h.2.2⟩

theorem claim_C7_witness :
    nextSubmission wStU = { wStU with queue := [], revealed := 1 } ∧
    revealStep wStU wSubU = bumpRevealed wStU ∧
    revealAll wStU = bumpRevealed (revealAll { wStU with queue := [] }) := by
  have h := claim_C7_unknown_handle wStU wSubU [] rfl rfl rfl (by decide)
  exact h

/-- C6: a clock tick never reports negative remaining time (both
countdowns are clamped at zero), and the end transition fires exactly
when the elapsed seconds have reached the contest duration while the
phase is live or frozen — not before — and never again once the phase
is ended (an ended-phase tick leaves the clock state untouched). -/
theorem claim_C6_clock (cs : ClockState) (now : Int) :
    0 ≤ (updateTimerDisplay cs now).2.1 ∧
    0 ≤ (updateTimerDisplay cs now).2.2 ∧
    ((cs.currentPhase = Phase.live ∨ cs.currentPhase = Phase.frozen) →
      (((updateTimerDisplay cs now).1.currentPhase = Phase.ended ∧
          (updateTimerDisplay cs now).1.timerRunning = false) ↔
        cs.contestDurationSec ≤
          Int.fdiv ((now - cs.contestStartTimestamp) * cs.timeScale) 1000)) ∧
    (cs.currentPhase = Phase.ended → (updateTimerDisplay cs now).1 = cs) := by
  refine ⟨le_max_left 0 _, le_max_left 0 _, ?_, ?_⟩
  · intro hph
    unfold updateTimerDisplay enterFrozenPhase enterContestEndedPhase
    simp only []
    rcases hph with hp | hp
    · by_cases hf : ¬cs.isFrozen ∧ cs.freezeAtSec ≤
          Int.fdiv ((now - cs.contestStartTimestamp) * cs.timeScale) 1000 ∧
          cs.currentPhase = Phase.live
      · rw [if_pos hf, if_neg (show ¬ ({ cs with isFrozen := true } :
          ClockState).currentPhase = Phase.frozen by simp [hp])]
        by_cases he : cs.contestDurationSec ≤
            Int.fdiv ((now - cs.contestStartTimestamp) * cs.timeScale) 1000
        · rw [if_pos ⟨by omega, by simp⟩]
          simp [he]
        · rw [if_neg (fun hcon => he (by
            have h2 := hcon.1
            omega))]
          simp [he]
      · rw [if_neg hf]
        by_cases he : cs.contestDurationSec ≤
            Int.fdiv ((now - cs.contestStartTimestamp) * cs.timeScale) 1000
        · rw [if_pos ⟨by omega, Or.inr hp⟩]
          simp [he]
        · rw [if_neg (fun hcon => he (by
            have h2 := hcon.1
            omega))]
          simp [he, hp]
    · have hf : ¬ (¬cs.isFrozen ∧ cs.freezeAtSec ≤
          Int.fdiv ((now - cs.contestStartTimestamp) * cs.timeScale) 1000 ∧
          cs.currentPhase = Phase.live) := by
        simp [hp]
      rw [if_neg hf]
      by_cases he : cs.contestDurationSec ≤
          Int.fdiv ((now - cs.contestStartTimestamp) * cs.timeScale) 1000
      · rw [if_pos ⟨by omega, Or.inl hp⟩]
        simp [he]
      · rw [if_neg (fun hcon => he (by
          have h2 := hcon.1
          omega))]
        simp [he, hp]
  · intro hp
    unfold updateTimerDisplay enterFrozenPhase enterContestEndedPhase
    simp only []
    rw [if_neg (by simp [hp]), if_neg (by simp [hp])]

theorem claim_C6_witness :
    (updateTimerDisplay wClock 100000).1.currentPhase = Phase.ended ∧
    (updateTimerDisplay wClock 100000).1.timerRunning = false ∧
    0 ≤ (updateTimerDisplay wClock 100000).2.1 := by
  have h := claim_C6_clock wClock 100000
  have hend := (h.2.2.1 (Or.inl rfl)).mpr (by decide)
  exact ⟨hend.1, hend.2, h.1⟩

/-- C2 fails on the code: `bugSt` holds one contestant whose cell "A" is
already `solved=true` (`time=100`) with `solved=1`, `penalty=1`.  An
accepted submission on the same pair is applied again by both modes —
`solved` becomes 2, `penalty` grows, and the cell's time is overwritten to
60 — because the accepted branch (unlike the rejected one) never checks
whether the cell is already solved. -/
theorem claim_C2_already_solved_bug :
    (nextSubmission bugSt).state.map (fun c => (c.solved, c.penalty)) = [(2, 2)] ∧
    (nextSubmission bugSt).state.map (fun c => objGet c.probs "A") =
      [some ⟨true, false, 60⟩] ∧
    (revealAll bugSt).state.map (fun c => (c.solved, c.penalty)) = [(2, 2)] := by
  refine ⟨?_, ?_, ?_⟩ <;>
    simp [nextSubmission, revealAll, revealStep, bugSt, bugC, bugSub,
      findHandle, countGet, objGet, objSet, updateFirstHandle, acceptUpdate,
      recalcRanks, List.mergeSort, List.merge, standingsLE, cellSolved,
      finishReveal, WA_PENALTY_MINUTES, List.enum, List.enumFrom,
      List.findIdx, List.findIdx.go, List.find?, snapshotRanks, jsOrNat,
      mvpScanStep]
theorem find?_map_keyFix {α : Type} (k k' : String) (v : α) (hne : (k == k') = false) :
    ∀ m : List (String × α),
      (m.map (fun p => if p.1 == k then (k, v) else p)).find? (fun p => p.1 == k') =
        m.find? (fun p => p.1 == k')
  | [] => rfl
  | p :: m => by
    cases hp : p.1 == k with
    | true =>
      have hp' : (p.1 == k') = false := by
        rw [beq_iff_eq] at hp
        rw [hp]
        exact hne
      simp only [List.map_cons, hp, if_true, List.find?, hne, hp']
      exact find?_map_keyFix k k' v hne m
    | false =>
      simp only [List.map_cons, hp, Bool.false_eq_true, if_false, List.find?]
      cases hpk : p.1 == k' with
      | true => rfl
      | false => exact find?_map_keyFix k k' v hne m

theorem objGet_objSet {α : Type} (m : List (String × α)) (k k' : String) (v : α) :
    objGet (objSet m k v) k' = if k' == k then some v else objGet m k' := by
  have hsym : ∀ a b : String, (a == b) = false → (b == a) = false := by
    intro a b h
    rw [beq_eq_false_iff_ne] at h ⊢
    exact fun he => h he.symm
  induction m with
  | nil =>
    cases h : k' == k with
    | true =>
      rw [beq_iff_eq] at h
      simp [objGet, objSet, List.find?, h]
    | false =>
      simp [objGet, objSet, List.find?, h, hsym k' k h]
  | cons p m ih =>
    cases hp : p.1 == k with
    | true =>
      have hsome : ((p :: m).find? (fun q => q.1 == k)).isSome := by
        simp [List.find?, hp]
      simp only [objSet, hsome, if_true, List.map_cons, hp]
      cases hk : k' == k with
      | true =>
        rw [beq_iff_eq] at hk
        simp [objGet, List.find?, hk]
      | false =>
        simp only [if_false, Bool.false_eq_true]
        unfold objGet
        simp only [List.find?, show ((k, v).1 == k') = false from hsym k' k hk]
        rw [find?_map_keyFix k k' v (hsym k' k hk) m]
        have hpk' : (p.1 == k') = false := by
          rw [beq_iff_eq] at hp
          rw [hp]
          exact hsym k' k hk
        simp [objGet, List.find?, hpk']
    | false =>
      have hcons : objSet (p :: m) k v = p :: objSet m k v := by
        unfold objSet
        simp only [List.find?, hp]
        cases hsm : (m.find? (fun q => q.1 == k)).isSome with
        | true =>
          simp only [hsm, if_true, List.map_cons, hp, Bool.false_eq_true,
            if_false]
        | false =>
          simp only [hsm, Bool.false_eq_true, if_false, List.cons_append]
      rw [hcons]
      cases hpk : p.1 == k' with
      | true =>
        have hk : (k' == k) = false := by
          rw [beq_eq_false_iff_ne] at hp ⊢
          rw [beq_iff_eq] at hpk
          exact fun he => hp (by rw [hpk, he])
        simp [objGet, List.find?, hpk, hk]
      | false =>
        unfold objGet
        simp only [List.find?, hpk]
        exact ih

theorem nextSubmission_processing (st : RevealState)
    (h : st.processing = true) : nextSubmission st = st := by
  unfold nextSubmission
  simp [h]

theorem nextSubmission_finished (st : RevealState)
    (h : st.revealFinished = true) : nextSubmission st = st := by
  unfold nextSubmission
  by_cases hp : st.processing <;> simp [hp, h]

theorem countGet_objSet (m : List (String × Nat)) (k k' : String) (v : Nat) :
    countGet (objSet m k v) k' = if k' == k then v else countGet m k' := by
  unfold countGet
  rw [objGet_objSet]
  split <;> rfl

theorem onceInv_step (st : RevealState) (h : OnceInv st) :
    OnceInv (nextSubmission st) := by
  obtain ⟨h1, h2, h3, h4⟩ := h
  by_cases hproc : st.processing
  · rw [nextSubmission_processing st hproc]
    exact ⟨h1, h2, h3, h4⟩
  by_cases hfin : st.revealFinished
  · rw [nextSubmission_finished st hfin]
    exact ⟨h1, h2, h3, h4⟩
  rw [Bool.not_eq_true] at hproc hfin
  cases hq : st.queue with
  | nil =>
    rw [nextSubmission_empty st hproc hfin hq]
    refine ⟨h1, h2, ?_, ?_⟩
    · intro k hk
      simp [finishReveal, hq]
    · simp [finishReveal, hq]
  | cons sub rest =>
    have hk0 : subKey sub ∈ st.queue.map subKey := by
      rw [hq]; exact List.mem_map_of_mem _ (by simp)
    have hc0 : countGet st.submissionCounts (subKey sub) = 0 := by
      have hle := h1 (subKey sub)
      rcases Nat.lt_or_ge (countGet st.submissionCounts (subKey sub)) 1 with hl | hg
      · omega
      · exfalso
        exact h3 (subKey sub) (by omega) hk0
    have htail : ∀ k, countGet st.submissionCounts k = 1 → k ∉ rest.map subKey := by
      intro k hk
      have := h3 k hk
      rw [hq] at this
      simp only [List.map_cons, List.mem_cons] at this
      exact fun hmem => this (Or.inr hmem)
    have hnd : (rest.map subKey).Nodup := by
      have := h4
      rw [hq] at this
      simp only [List.map_cons, List.nodup_cons] at this
      exact this.2
    have hhead : subKey sub ∉ rest.map subKey := by
      have := h4
      rw [hq] at this
      simp only [List.map_cons, List.nodup_cons] at this
      exact this.1
    cases hfound : findHandle st.state sub.handle with
    | none =>
      rw [nextSubmission_unknown st sub rest hproc hfin hq hfound]
      exact ⟨h1, h2, htail, hnd⟩
    | some c₀ =>
      have hcounts : (nextSubmission st).submissionCounts =
          objSet st.submissionCounts (subKey sub)
            (countGet st.submissionCounts (subKey sub) + 1) ∧
          (nextSubmission st).mostPersistent =
            (if st.mostPersistent.count <
                countGet st.submissionCounts (subKey sub) + 1 then
              ⟨sub.handle, sub.problemIndex, sub.problemName,
                countGet st.submissionCounts (subKey sub) + 1⟩
            else st.mostPersistent) ∧
          (nextSubmission st).queue = rest := by
        cases hok : sub.verdict == "OK" with
        | true =>
          have hok' : sub.verdict = "OK" := by rwa [beq_iff_eq] at hok
          have hacc := nextSubmission_accepted st sub rest c₀ hproc hfin hq
            hok' hfound
          exact ⟨hacc.2.2.2.2.1, hacc.2.2.2.2.2.1, hacc.2.1⟩
        | false =>
          rw [nextSubmission_rejected st sub rest c₀ hproc hfin hq hok hfound]
          exact ⟨rfl, rfl, rfl⟩
      obtain ⟨hcnt, hmp, hque⟩ := hcounts
      rw [hc0] at hcnt hmp
      refine ⟨?_, ?_, ?_, ?_⟩
      · intro k
        rw [hcnt, countGet_objSet]
        split
        · omega
        · exact h1 k
      · rw [hmp]
        split
        · simp
        · exact h2
      · intro k hk
        rw [hque]
        rw [hcnt, countGet_objSet] at hk
        by_cases hkk : (k == subKey sub) = true
        · rw [beq_iff_eq] at hkk
          rw [hkk]
          exact hhead
        · rw [if_neg hkk] at hk
          exact htail k hk
      · rw [hque]
        exact hnd

theorem onceInv_stepRun : ∀ (n : Nat) (st : RevealState),
    OnceInv st → OnceInv (stepRun n st)
  | 0, _, h => h
  | n + 1, st, h => onceInv_stepRun n (nextSubmission st) (onceInv_step st h)

/-- C8: the awards output omits the Hill Climber (MVP) card unless the
tracked MVP delta is strictly positive, and omits the Mr. Not Give Up
(persistence) card unless the tracked count is strictly greater than one;
in particular a step-mode reveal in which every `(handle, problem)` pair
is submitted at most once never yields a persistence award, and a reveal
whose tracked MVP delta never became positive yields no MVP card. -/
theorem claim_C8_award_thresholds :
    (∀ (st : RevealState) (x : MvpT), (showAwards st).1 = some x →
      st.mvp.handle ≠ "" ∧ 0 < st.mvp.delta) ∧
    (∀ (st : RevealState) (x : PersistT), (showAwards st).2.1 = some x →
      st.mostPersistent.handle ≠ "" ∧ 1 < st.mostPersistent.count) ∧
    (∀ st : RevealState, st.mvp.delta ≤ 0 → (showAwards st).1 = none) ∧
    (∀ st : RevealState, st.mostPersistent.count ≤ 1 →
      (showAwards st).2.1 = none) ∧
    (∀ (st : RevealState) (n : Nat),
      (st.queue.map subKey).Nodup → st.submissionCounts = [] →
      st.mostPersistent.count = 0 →
      (showAwards (stepRun n st)).2.1 = none) := by
  have h4 : ∀ st : RevealState, st.mostPersistent.count ≤ 1 →
      (showAwards st).2.1 = none := by
    intro st h
    show (if st.mostPersistent.handle ≠ "" ∧ 1 < st.mostPersistent.count then
      some st.mostPersistent else none) = none
    rw [if_neg (fun hc => absurd hc.2 (by omega))]
  refine ⟨?_, ?_, ?_, h4, ?_⟩
  · intro st x h
    unfold showAwards at h
    by_cases hc : st.mvp.handle ≠ "" ∧ 0 < st.mvp.delta
    · exact hc
    · rw [if_neg hc] at h
      exact absurd h (by simp)
  · intro st x h
    unfold showAwards at h
    by_cases hc : st.mostPersistent.handle ≠ "" ∧ 1 < st.mostPersistent.count
    · exact hc
    · rw [if_neg hc] at h
      exact absurd h (by simp)
  · intro st h
    show (if st.mvp.handle ≠ "" ∧ 0 < st.mvp.delta then
      some st.mvp else none) = none
    rw [if_neg (fun hc => absurd hc.2 (by omega))]
  · intro st n hnd hcnt hmp
    have hinv : OnceInv st := by
      refine ⟨?_, by omega, ?_, hnd⟩
      · intro k
        simp [countGet, objGet, hcnt]
      · intro k hk
        simp [countGet, objGet, hcnt] at hk
    exact h4 _ (onceInv_stepRun n st hinv).2.1

theorem claim_C8_witness :
    (showAwards (stepRun 1 wSt754)).2.1 = none ∧
    (showAwards wBusy).1 = none :=
  ⟨claim_C8_award_thresholds.2.2.2.2 wSt754 1 (by decide) rfl rfl,
    claim_C8_award_thresholds.2.2.1 wBusy (by decide)⟩

theorem chain_lt_drop {x : Nat} : ∀ {y : Nat} {l : List Nat},
    List.Chain (· < ·) x (y :: l) → List.Chain (· < ·) x l := by
  intro y l h
  rw [List.chain_cons] at h
  obtain ⟨hxy, hyl⟩ := h
  cases l with
  | nil => exact List.Chain.nil
  | cons z l' =>
    rw [List.chain_cons] at hyl ⊢
    exact ⟨Nat.lt_trans hxy hyl.1, hyl.2⟩

theorem keysOf_of_obsOf {s₁ s₂ : List Contestant}
    (h : obsOf s₁ = obsOf s₂) : keysOf s₁ = keysOf s₂ := by
  have h1 : ∀ s : List Contestant, keysOf s = (obsOf s).map (fun t => t.2) := by
    intro s
    simp only [keysOf, obsOf, List.map_map]
    rfl
  rw [h1, h1, h]

theorem findHandle_none_iff {s : List Contestant} {h : String} :
    findHandle s h = none ↔ ∀ x ∈ s, (x.handle == h) = false := by
  unfold findHandle
  rw [List.find?_eq_none]
  simp [Bool.not_eq_true]

theorem findHandle_none_congr {s₁ s₂ : List Contestant} {h : String}
    (hobs : obsOf s₁ = obsOf s₂) :
    (findHandle s₁ h = none ↔ findHandle s₂ h = none) := by
  rw [findHandle_none_iff, findHandle_none_iff]
  have hh : s₁.map (fun c => c.handle) = s₂.map (fun c => c.handle) := by
    have h1 : ∀ s : List Contestant,
        s.map (fun c => c.handle) = (obsOf s).map (fun t => t.1) := by
      intro s
      simp only [obsOf, List.map_map]
      rfl
    rw [h1, h1, hobs]
  constructor
  · intro hz x hx
    have hmem : x.handle ∈ s₂.map (fun c => c.handle) :=
      List.mem_map_of_mem _ hx
    rw [← hh] at hmem
    obtain ⟨y, hy, hyx⟩ := List.mem_map.mp hmem
    rw [show x.handle = y.handle from hyx.symm]
    exact hz y hy
  · intro hz x hx
    have hmem : x.handle ∈ s₁.map (fun c => c.handle) :=
      List.mem_map_of_mem _ hx
    rw [hh] at hmem
    obtain ⟨y, hy, hyx⟩ := List.mem_map.mp hmem
    rw [show x.handle = y.handle from hyx.symm]
    exact hz y hy

/-- Updating the first matching element with a function that rewrites
`(handle, solved, penalty)` as a function of the old values gives equal
observables on observably equal states. -/
theorem obsOf_updateFirstHandle_congr {h : String}
    (f : Contestant → Contestant)
    (g : String × Nat × Nat → String × Nat × Nat)
    (hf : ∀ c : Contestant,
      ((f c).handle, (f c).solved, (f c).penalty) =
        g (c.handle, c.solved, c.penalty)) :
    ∀ {s₁ s₂ : List Contestant}, obsOf s₁ = obsOf s₂ →
      obsOf (updateFirstHandle s₁ h f) = obsOf (updateFirstHandle s₂ h f) := by
  intro s₁
  induction s₁ with
  | nil =>
    intro s₂ hobs
    cases s₂ with
    | nil => rfl
    | cons b t => simp [obsOf] at hobs
  | cons a s ih =>
    intro s₂ hobs
    cases s₂ with
    | nil => simp [obsOf] at hobs
    | cons b t =>
      simp only [obsOf, List.map_cons, List.cons.injEq] at hobs
      obtain ⟨hab, hst⟩ := hobs
      have hhand : a.handle = b.handle := congrArg Prod.fst hab
      simp only [updateFirstHandle, hhand]
      cases hcond : b.handle == h with
      | true =>
        simp only [hcond, if_true, obsOf, List.map_cons, List.cons.injEq]
        exact ⟨by rw [hf a, hf b, hab], hst⟩
      | false =>
        simp only [hcond, Bool.false_eq_true, if_false, obsOf,
          List.map_cons, List.cons.injEq]
        exact ⟨hab, ih hst⟩

/-- Updating the first matching element with a function that leaves
`handle`, `solved`, `penalty` and `rank` untouched preserves the
observables and the ranks. -/
theorem updateFirstHandle_preserve {h : String} (f : Contestant → Contestant)
    (hf : ∀ c : Contestant, (f c).handle = c.handle ∧ (f c).solved = c.solved ∧
      (f c).penalty = c.penalty ∧ (f c).rank = c.rank) :
    ∀ s : List Contestant,
      obsOf (updateFirstHandle s h f) = obsOf s ∧
      ranksOf (updateFirstHandle s h f) = ranksOf s := by
  intro s
  induction s with
  | nil => exact ⟨rfl, rfl⟩
  | cons a s ih =>
    simp only [updateFirstHandle]
    cases hcond : a.handle == h with
    | true =>
      obtain ⟨hh, hs, hp, hr⟩ := hf a
      simp only [hcond, if_true]
      constructor
      · show ((f a).handle, (f a).solved, (f a).penalty) :: obsOf s =
          (a.handle, a.solved, a.penalty) :: obsOf s
        rw [hh, hs, hp]
      · show (f a).rank :: ranksOf s = a.rank :: ranksOf s
        rw [hr]
    | false =>
      simp only [hcond, Bool.false_eq_true, if_false]
      constructor
      · show (a.handle, a.solved, a.penalty) ::
            obsOf (updateFirstHandle s h f) =
          (a.handle, a.solved, a.penalty) :: obsOf s
        rw [ih.1]
      · show a.rank :: ranksOf (updateFirstHandle s h f) =
          a.rank :: ranksOf s
        rw [ih.2]

theorem revealStep_accepted (b : RevealState) (sub : Submission)
    (d₀ : Contestant) (hok : sub.verdict = "OK")
    (hfound : findHandle b.state sub.handle = some d₀) :
    revealStep b sub =
      { b with
        revealed := b.revealed + 1,
        submissionCounts := objSet b.submissionCounts
          (sub.handle ++ "|" ++ sub.problemIndex)
          (countGet b.submissionCounts
            (sub.handle ++ "|" ++ sub.problemIndex) + 1),
        mostPersistent :=
          if b.mostPersistent.count <
              countGet b.submissionCounts
                (sub.handle ++ "|" ++ sub.problemIndex) + 1 then
            ⟨sub.handle, sub.problemIndex, sub.problemName,
              countGet b.submissionCounts
                (sub.handle ++ "|" ++ sub.problemIndex) + 1⟩
          else b.mostPersistent,
        state := updateFirstHandle b.state sub.handle (acceptUpdate sub),
        acceptedCount := b.acceptedCount + 1,
        lastMinuteHero :=
          if b.lastMinuteHero.time < sub.relativeTimeSec then
            ⟨sub.handle, sub.problemIndex, sub.problemName,
              sub.relativeTimeSec⟩
          else b.lastMinuteHero } := by
  unfold revealStep
  simp only []
  rw [show findHandle ({ b with revealed := b.revealed + 1 } :
    RevealState).state sub.handle = some d₀ from hfound]
  rw [show (sub.verdict == "OK") = true by simp [hok]]
  simp

theorem revealStep_rejected (b : RevealState) (sub : Submission)
    (d₀ : Contestant) (hrej : (sub.verdict == "OK") = false)
    (hfound : findHandle b.state sub.handle = some d₀) :
    revealStep b sub =
      { b with
        revealed := b.revealed + 1,
        submissionCounts := objSet b.submissionCounts
          (sub.handle ++ "|" ++ sub.problemIndex)
          (countGet b.submissionCounts
            (sub.handle ++ "|" ++ sub.problemIndex) + 1),
        mostPersistent :=
          if b.mostPersistent.count <
              countGet b.submissionCounts
                (sub.handle ++ "|" ++ sub.problemIndex) + 1 then
            ⟨sub.handle, sub.problemIndex, sub.problemName,
              countGet b.submissionCounts
                (sub.handle ++ "|" ++ sub.problemIndex) + 1⟩
          else b.mostPersistent } := by
  unfold revealStep
  simp only []
  rw [show findHandle ({ b with revealed := b.revealed + 1 } :
    RevealState).state sub.handle = some d₀ from hfound]
  rw [hrej]
  simp

theorem mvpScanStep_proj (oldRanks : List (String × Nat)) (x : RevealState)
    (c : Contestant) :
    (mvpScanStep oldRanks x c).state = x.state ∧
    (mvpScanStep oldRanks x c).submissionCounts = x.submissionCounts ∧
    (mvpScanStep oldRanks x c).mostPersistent = x.mostPersistent ∧
    (mvpScanStep oldRanks x c).acceptedCount = x.acceptedCount ∧
    (mvpScanStep oldRanks x c).lastMinuteHero = x.lastMinuteHero ∧
    (mvpScanStep oldRanks x c).revealed = x.revealed := by
  unfold mvpScanStep
  simp only []
  split <;> split <;> exact ⟨rfl, rfl, rfl, rfl, rfl, rfl⟩

theorem scan_preserves (oldRanks : List (String × Nat)) :
    ∀ (l : List Contestant) (x : RevealState),
      (l.foldl (mvpScanStep oldRanks) x).state = x.state ∧
      (l.foldl (mvpScanStep oldRanks) x).submissionCounts =
        x.submissionCounts ∧
      (l.foldl (mvpScanStep oldRanks) x).mostPersistent = x.mostPersistent ∧
      (l.foldl (mvpScanStep oldRanks) x).acceptedCount = x.acceptedCount ∧
      (l.foldl (mvpScanStep oldRanks) x).lastMinuteHero = x.lastMinuteHero ∧
      (l.foldl (mvpScanStep oldRanks) x).revealed = x.revealed
  | [], x => ⟨rfl, rfl, rfl, rfl, rfl, rfl⟩
  | c :: l, x => by
    simp only [List.foldl_cons]
    obtain ⟨h1, h2, h3, h4, h5, h6⟩ := scan_preserves oldRanks l
      (mvpScanStep oldRanks x c)
    obtain ⟨g1, g2, g3, g4, g5, g6⟩ := mvpScanStep_proj oldRanks x c
    exact ⟨h1.trans g1, h2.trans g2, h3.trans g3, h4.trans g4,
      h5.trans g5, h6.trans g6⟩

theorem stepBatch_single (a b : RevealState) (sub : Submission)
    (rest : List Submission) (hrel : StepBatchRel a b)
    (hq : a.queue = sub :: rest)
    (hchain : List.Chain (· < ·) a.lastMinuteHero.time
      ((sub :: rest).map (fun s => s.relativeTimeSec))) :
    StepBatchRel (nextSubmission a) (revealStep b sub) ∧
    (nextSubmission a).queue = rest ∧
    List.Chain (· < ·) (nextSubmission a).lastMinuteHero.time
      (rest.map (fun s => s.relativeTimeSec)) := by
  obtain ⟨hobs, hcnt, hmp, hacc, hhero, hrev, hproc, hfin, hcons⟩ := hrel
  have hchain2 : List.Chain (· < ·) a.lastMinuteHero.time
      (sub.relativeTimeSec :: rest.map (fun s => s.relativeTimeSec)) := by
    simpa using hchain
  cases hfa : findHandle a.state sub.handle with
  | none =>
    have hfb : findHandle b.state sub.handle = none :=
      (findHandle_none_congr hobs).mp hfa
    rw [nextSubmission_unknown a sub rest hproc hfin hq hfa,
      revealStep_unknown b sub hfb]
    refine ⟨⟨hobs, hcnt, hmp, hacc, hhero, ?_, hproc, hfin, hcons⟩, rfl, ?_⟩
    · show a.revealed + 1 = b.revealed + 1
      rw [hrev]
    · exact chain_lt_drop hchain2
  | some c₀ =>
    have hfb : findHandle b.state sub.handle ≠ none := by
      intro hnone
      rw [(findHandle_none_congr hobs).mpr hnone] at hfa
      exact Option.noConfusion hfa
    obtain ⟨d₀, hfbd⟩ := Option.ne_none_iff_exists'.mp hfb
    cases hok : sub.verdict == "OK" with
    | true =>
      have hok' : sub.verdict = "OK" := by rwa [beq_iff_eq] at hok
      obtain ⟨ha1, ha2, ha3, ha4, ha5, ha6, ha7, ha8, ha9⟩ :=
        nextSubmission_accepted a sub rest c₀ hproc hfin hq hok' hfa
      rw [revealStep_accepted b sub d₀ hok' hfbd]
      have htime : a.lastMinuteHero.time < sub.relativeTimeSec :=
        (List.chain_cons.mp hchain2).1
      refine ⟨⟨?_, ?_, ?_, ?_, ?_, ?_, ha8, ha9, ?_⟩, ha2, ?_⟩
      · rw [ha1]
        exact (obsOf_recalcRanks _).trans
          (obsOf_updateFirstHandle_congr (acceptUpdate sub)
            (fun t => (t.1, t.2.1 + 1, t.2.2 + (sub.relativeTimeSec / 60 +
              WA_PENALTY_MINUTES * sub.wrongAttemptsBefore)))
            (fun c => rfl) hobs)
      · rw [ha5, hcnt]
      · rw [ha6, hcnt, hmp]
      · show (nextSubmission a).acceptedCount = b.acceptedCount + 1
        rw [ha4, hacc]
      · show (nextSubmission a).lastMinuteHero = _
        rw [ha7]
        rw [show (if b.lastMinuteHero.time < sub.relativeTimeSec then
            (⟨sub.handle, sub.problemIndex, sub.problemName,
              sub.relativeTimeSec⟩ : HeroT)
          else b.lastMinuteHero) =
          ⟨sub.handle, sub.problemIndex, sub.problemName,
            sub.relativeTimeSec⟩ from if_pos (hhero ▸ htime)]
      · show (nextSubmission a).revealed = b.revealed + 1
        rw [ha3, hrev]
      · rw [ha1]
        exact ranksOf_recalcRanks_idem _
      · rw [ha7]
        exact (List.chain_cons.mp hchain2).2
    | false =>
      rw [nextSubmission_rejected a sub rest c₀ hproc hfin hq hok hfa,
        revealStep_rejected b sub d₀ hok hfbd]
      have hf : ∀ c : Contestant,
          ((if cellSolved c sub.problemIndex then c
            else { c with probs :=
              (objSet c.probs sub.problemIndex (Cell.mk false true 0)) }).handle
              = c.handle) ∧
          ((if cellSolved c sub.problemIndex then c
            else { c with probs :=
              (objSet c.probs sub.problemIndex (Cell.mk false true 0)) }).solved
              = c.solved) ∧
          ((if cellSolved c sub.problemIndex then c
            else { c with probs :=
              (objSet c.probs sub.problemIndex (Cell.mk false true 0)) }).penalty
              = c.penalty) ∧
          ((if cellSolved c sub.problemIndex then c
            else { c with probs :=
              (objSet c.probs sub.problemIndex (Cell.mk false true 0)) }).rank
              = c.rank) := by
        intro c
        by_cases hcell : cellSolved c sub.problemIndex <;>
          simp [hcell]
      have hpres := updateFirstHandle_preserve (h := sub.handle) _ hf a.state
      refine ⟨⟨?_, ?_, ?_, hacc, hhero, ?_, hproc, hfin, ?_⟩, rfl, ?_⟩
      · show obsOf (updateFirstHandle a.state sub.handle _) = obsOf b.state
        rw [hpres.1, hobs]
      · show objSet a.submissionCounts _ _ = objSet b.submissionCounts _ _
        rw [hcnt]
      · show (if a.mostPersistent.count < countGet a.submissionCounts
            (sub.handle ++ "|" ++ sub.problemIndex) + 1 then _
          else a.mostPersistent) = _
        rw [hcnt, hmp]
      · show a.revealed + 1 = b.revealed + 1
        rw [hrev]
      · show ranksOf (recalcRanks (updateFirstHandle a.state sub.handle _)) =
          ranksOf (updateFirstHandle a.state sub.handle _)
        rw [hpres.2]
        rw [ranksOf_recalcRanks_congr
          (keysOf_of_obsOf (hpres.1.trans (obsOf_recalcRanks a.state).symm))]
        rw [ranksOf_recalcRanks_idem, hcons]
      · exact chain_lt_drop hchain2

theorem stepBatch_loop : ∀ (q : List Submission) (a b : RevealState),
    StepBatchRel a b → a.queue = q →
    List.Chain (· < ·) a.lastMinuteHero.time
      (q.map (fun s => s.relativeTimeSec)) →
    StepBatchRel (stepRun q.length a) (q.foldl revealStep b) ∧
    (stepRun q.length a).queue = []
  | [], a, b, hrel, hq, _ => ⟨hrel, hq⟩
  | sub :: rest, a, b, hrel, hq, hchain => by
    obtain ⟨hrel', hq', hchain'⟩ := stepBatch_single a b sub rest hrel hq hchain
    simp only [List.length_cons, List.foldl_cons]
    exact stepBatch_loop rest (nextSubmission a) (revealStep b sub)
      hrel' hq' hchain'

/-- C1 amended: running step mode to queue exhaustion and batch mode
(`revealAll`) agree on every contestant's `(handle, solved, penalty)`
observables, on the final ranks, on the submission counts, the persistence
candidate, the accepted count, the last-minute candidate and the progress
counter — provided the reveal state is idle, its ranks agree with a
recomputation (true of any freshly reset state), and the queue is strictly
ascending in `relativeTimeSec` above the current last-minute time (the
data-model ordering invariant).  The MVP tracker is deliberately excluded:
the two modes compute it differently, and `claim_C1_counterexample`
exhibits a state and time-ordered queue on which the MVP differs. -/
theorem claim_C1_mode_equivalence (st : RevealState)
    (hproc : st.processing = false) (hfin : st.revealFinished = false)
    (hcons : ranksOf (recalcRanks st.state) = ranksOf st.state)
    (hchain : List.Chain (· < ·) st.lastMinuteHero.time
      (st.queue.map (fun s => s.relativeTimeSec))) :
    obsOf (stepRun st.queue.length st).state = obsOf (revealAll st).state ∧
    ranksOf (stepRun st.queue.length st).state =
      ranksOf (revealAll st).state ∧
    (stepRun st.queue.length st).submissionCounts =
      (revealAll st).submissionCounts ∧
    (stepRun st.queue.length st).mostPersistent =
      (revealAll st).mostPersistent ∧
    (stepRun st.queue.length st).acceptedCount =
      (revealAll st).acceptedCount ∧
    (stepRun st.queue.length st).lastMinuteHero =
      (revealAll st).lastMinuteHero ∧
    (stepRun st.queue.length st).revealed = (revealAll st).revealed := by
  have hrel0 : StepBatchRel st ({ st with queue := [] } : RevealState) :=
    ⟨rfl, rfl, rfl, rfl, rfl, rfl, hproc, hfin, hcons⟩
  obtain ⟨⟨hobs, hcnt, hmp, hacc, hhero, hrev, _, _, hcons'⟩, _⟩ :=
    stepBatch_loop st.queue st ({ st with queue := [] } : RevealState)
      hrel0 rfl hchain
  obtain ⟨g1, g2, g3, g4, g5, g6⟩ := scan_preserves (snapshotRanks st.state)
    (recalcRanks (st.queue.foldl revealStep
      ({ st with queue := [] } : RevealState)).state)
    ({ st.queue.foldl revealStep ({ st with queue := [] } : RevealState)
      with state := recalcRanks (st.queue.foldl revealStep
        ({ st with queue := [] } : RevealState)).state })
  have hrall : revealAll st =
      finishReveal ((recalcRanks (st.queue.foldl revealStep
          ({ st with queue := [] } : RevealState)).state).foldl
        (mvpScanStep (snapshotRanks st.state))
        ({ st.queue.foldl revealStep ({ st with queue := [] } : RevealState)
          with state := recalcRanks (st.queue.foldl revealStep
            ({ st with queue := [] } : RevealState)).state })) := rfl
  rw [hrall]
  simp only [finishReveal]
  refine ⟨?_, ?_, ?_, ?_, ?_, ?_, ?_⟩
  · show obsOf (stepRun st.queue.length st).state =
      obsOf ((recalcRanks (st.queue.foldl revealStep
          ({ st with queue := [] } : RevealState)).state).foldl
        (mvpScanStep (snapshotRanks st.state))
        ({ st.queue.foldl revealStep ({ st with queue := [] } : RevealState)
          with state := recalcRanks (st.queue.foldl revealStep
            ({ st with queue := [] } : RevealState)).state })).state
    rw [g1]
    show obsOf (stepRun st.queue.length st).state =
      obsOf (recalcRanks (st.queue.foldl revealStep
        ({ st with queue := [] } : RevealState)).state)
    rw [obsOf_recalcRanks]
    exact hobs
  · show ranksOf (stepRun st.queue.length st).state =
      ranksOf ((recalcRanks (st.queue.foldl revealStep
          ({ st with queue := [] } : RevealState)).state).foldl
        (mvpScanStep (snapshotRanks st.state))
        ({ st.queue.foldl revealStep ({ st with queue := [] } : RevealState)
          with state := recalcRanks (st.queue.foldl revealStep
            ({ st with queue := [] } : RevealState)).state })).state
    rw [g1]
    show ranksOf (stepRun st.queue.length st).state =
      ranksOf (recalcRanks (st.queue.foldl revealStep
        ({ st with queue := [] } : RevealState)).state)
    rw [← ranksOf_recalcRanks_congr (keysOf_of_obsOf hobs)]
    exact hcons'.symm
  · show (stepRun st.queue.length st).submissionCounts =
      ((recalcRanks (st.queue.foldl revealStep
          ({ st with queue := [] } : RevealState)).state).foldl
        (mvpScanStep (snapshotRanks st.state))
        ({ st.queue.foldl revealStep ({ st with queue := [] } : RevealState)
          with state := recalcRanks (st.queue.foldl revealStep
            ({ st with queue := [] } : RevealState)).state })).submissionCounts
    rw [g2]
    exact hcnt
  · show (stepRun st.queue.length st).mostPersistent =
      ((recalcRanks (st.queue.foldl revealStep
          ({ st with queue := [] } : RevealState)).state).foldl
        (mvpScanStep (snapshotRanks st.state))
        ({ st.queue.foldl revealStep ({ st with queue := [] } : RevealState)
          with state := recalcRanks (st.queue.foldl revealStep
            ({ st with queue := [] } : RevealState)).state })).mostPersistent
    rw [g3]
    exact hmp
  · show (stepRun st.queue.length st).acceptedCount =
      ((recalcRanks (st.queue.foldl revealStep
          ({ st with queue := [] } : RevealState)).state).foldl
        (mvpScanStep (snapshotRanks st.state))
        ({ st.queue.foldl revealStep ({ st with queue := [] } : RevealState)
          with state := recalcRanks (st.queue.foldl revealStep
            ({ st with queue := [] } : RevealState)).state })).acceptedCount
    rw [g4]
    exact hacc
  · show (stepRun st.queue.length st).lastMinuteHero =
      ((recalcRanks (st.queue.foldl revealStep
          ({ st with queue := [] } : RevealState)).state).foldl
        (mvpScanStep (snapshotRanks st.state))
        ({ st.queue.foldl revealStep ({ st with queue := [] } : RevealState)
          with state := recalcRanks (st.queue.foldl revealStep
            ({ st with queue := [] } : RevealState)).state })).lastMinuteHero
    rw [g5]
    exact hhero
  · show (stepRun st.queue.length st).revealed =
      ((recalcRanks (st.queue.foldl revealStep
          ({ st with queue := [] } : RevealState)).state).foldl
        (mvpScanStep (snapshotRanks st.state))
        ({ st.queue.foldl revealStep ({ st with queue := [] } : RevealState)
          with state := recalcRanks (st.queue.foldl revealStep
            ({ st with queue := [] } : RevealState)).state })).revealed
    rw [g6]
    exact hrev

/-- C1 as stated is false: on `cxSt` (a fresh state with a strictly
time-ordered queue), step mode run to exhaustion records MVP "ann" with
delta 1 — "ann" climbed mid-reveal and fell back — while batch mode
(`revealAll`) compares only the final ranks against its start-of-batch
snapshot and records no MVP at all. -/
theorem claim_C1_counterexample :
    (stepRun cxSt.queue.length cxSt).mvp ≠ (revealAll cxSt).mvp := by
  have h1 : (stepRun cxSt.queue.length cxSt).mvp = ⟨"ann", 1⟩ := by
    simp [stepRun, nextSubmission, revealAll, revealStep, cxSt, cxA, cxB,
      cxSub1, cxSub2, findHandle, countGet, objGet, objSet,
      updateFirstHandle, acceptUpdate, recalcRanks, List.mergeSort,
      List.merge, standingsLE, cellSolved, finishReveal, WA_PENALTY_MINUTES,
      List.enum, List.enumFrom, List.findIdx, List.findIdx.go, List.find?,
      snapshotRanks, jsOrNat, mvpScanStep]
  have h2 : (revealAll cxSt).mvp = ⟨"", 0⟩ := by
    simp [stepRun, nextSubmission, revealAll, revealStep, cxSt, cxA, cxB,
      cxSub1, cxSub2, findHandle, countGet, objGet, objSet,
      updateFirstHandle, acceptUpdate, recalcRanks, List.mergeSort,
      List.merge, standingsLE, cellSolved, finishReveal, WA_PENALTY_MINUTES,
      List.enum, List.enumFrom, List.findIdx, List.findIdx.go, List.find?,
      snapshotRanks, jsOrNat, mvpScanStep]
  rw [h1, h2]
  decide

theorem claim_C1_witness :
    obsOf (stepRun cxSt.queue.length cxSt).state =
      obsOf (revealAll cxSt).state ∧
    ranksOf (stepRun cxSt.queue.length cxSt).state =
      ranksOf (revealAll cxSt).state ∧
    (stepRun cxSt.queue.length cxSt).submissionCounts =
      (revealAll cxSt).submissionCounts ∧
    (stepRun cxSt.queue.length cxSt).mostPersistent =
      (revealAll cxSt).mostPersistent ∧
    (stepRun cxSt.queue.length cxSt).acceptedCount =
      (revealAll cxSt).acceptedCount ∧
    (stepRun cxSt.queue.length cxSt).lastMinuteHero =
      (revealAll cxSt).lastMinuteHero ∧
    (stepRun cxSt.queue.length cxSt).revealed = (revealAll cxSt).revealed :=
  claim_C1_mode_equivalence cxSt rfl rfl
    (by
      simp [ranksOf, recalcRanks, cxSt, cxA, cxB, List.mergeSort,
        List.merge, standingsLE, List.enum, List.enumFrom, List.findIdx,
        List.findIdx.go])
    (by
      show List.Chain (· < ·) 0 [60, 120]
      exact List.Chain.cons (by omega)
        (List.Chain.cons (by omega) List.Chain.nil))
